import Mathlib

/-!
Verification development for the SimonStratTerminal trading-research backend.

The Python source is shallowly embedded in Lean:
* prices, scores, confidences and portfolio quantities are modelled as `ℚ`
  (the transaction-cost model, which contains a square root, is modelled over `ℝ`);
* pandas data frames become Lean lists of records;
* the backtest engine's per-bar loop becomes a fold of an explicit step function
  over a run state, with the engine's injected dependencies (ensemble forecast,
  rolling-volatility series, cost model) supplied as function arguments, exactly
  as `BacktestEngine.__init__` receives `ensemble`, `constraints` and
  `cost_model` as constructor parameters.

Sections follow the source files:
  app/models/ensemble.py, app/portfolio/sizing.py, app/backtest/costs.py,
  app/portfolio/constraints.py, app/backtest/engine.py, app/data/normalize.py.
-/

namespace SimonStrat

/-! ### app/signals/base.py -/

/-- The `SignalResult` dataclass from `app/signals/base.py` (fields used by the ensemble:
`name`, `score`, `confidence`, `description`; timestamp/reason/components are
not read by `EnsembleModel.combine` and are omitted). -/
structure SignalResult where
  name : String
  score : ℚ
  confidence : ℚ
  description : Option String := none
deriving DecidableEq, Repr

/-- Names given to the three built-in signals in the engine
(`MomentumSignal.__init__`, `MeanReversionSignal.__init__`,
`RegimeFilterSignal.__init__`). -/
def momentumSignalName : String := "Trend (recent price strength)"

def meanReversionSignalName : String := "Pullback vs average"

def regimeFilterSignalName : String := "Market Regime (trend/vol filter)"

/-! ### app/models/ensemble.py -/

/-- One entry of the `contributors` list built inside `EnsembleModel.combine`. -/
structure Contributor where
  signal : String
  contribution : ℚ
  score : ℚ
  confidence : ℚ
deriving DecidableEq, Repr

/-- The `explanation` dict of a `Forecast`. -/
structure Explanation where
  top_contributors : List (String × ℚ)
  regime_filter : String
deriving DecidableEq, Repr

/-- The `Forecast` dataclass from `app/models/ensemble.py`.
`suggested_position_size` is `Optional[float]` (defaults to `None`). -/
structure Forecast where
  direction : String
  confidence : ℚ
  suggested_position_size : Option ℚ := none
  explanation : Option Explanation := none
deriving DecidableEq, Repr

/-- The `EnsembleModel` constructor state: `signal_weights` (a dict, modelled as an
association list with distinct keys), `regime_weight`, `threshold`. -/
structure EnsembleModel where
  signal_weights : List (String × ℚ) := []
  regime_weight : ℚ := 0.3
  threshold : ℚ := 0.1
deriving DecidableEq, Repr

/-- Python `weights.get(name, 0.0)` on the association list modelling the dict. -/
def getWeight : List (String × ℚ) → String → ℚ
  | [], _ => 0
  | kv :: t, n => if kv.1 = n then kv.2 else getWeight t n

/-- Python `sorted(contributors, key=lambda x: abs(x["contribution"]), reverse=True)`:
a stable descending sort by absolute contribution (insertion sort with the
"comes-no-later" relation `|b.contribution| ≤ |a.contribution|`). -/
def insertContribDesc (c : Contributor) : List Contributor → List Contributor
  | [] => [c]
  | d :: ds =>
    if |d.contribution| ≤ |c.contribution| then c :: d :: ds
    else d :: insertContribDesc c ds

def sortContribDesc : List Contributor → List Contributor
  | [] => []
  | c :: cs => insertContribDesc c (sortContribDesc cs)

/-- Python truthiness of `regime_signal.description or "Unknown regime"`. -/
def descOr (d : Option String) : String :=
  match d with
  | none => "Unknown regime"
  | some s => if s = "" then "Unknown regime" else s

/-- The `trading_signals` list of `combine` (lines 64-72): every signal whose
name is not the literal `"Regime Filter"`. -/
def tradingSignalsOf (signals : List SignalResult) : List SignalResult :=
  signals.filter (fun s => decide (s.name ≠ "Regime Filter"))

/-- The `regime_signal` variable of `combine`: the Python loop overwrites it,
so the last signal named `"Regime Filter"` wins. -/
def regimeSignalOf (signals : List SignalResult) : Option SignalResult :=
  (signals.filter (fun s => decide (s.name = "Regime Filter"))).getLast?

/-- The weight-resolution block of `combine` (lines 74-88): an empty mapping
yields equal weights over the trading signals; a nonempty mapping is
normalized only when its values sum to a positive number, and otherwise is
used as given. -/
def resolveWeights (m : EnsembleModel) (trading_signals : List SignalResult) :
    List (String × ℚ) :=
  if m.signal_weights = [] then
    if trading_signals.length > 0 then
      trading_signals.map (fun s => (s.name, (1 : ℚ) / trading_signals.length))
    else []
  else
    let total := (m.signal_weights.map (fun kv => kv.2)).sum
    if total > 0 then m.signal_weights.map (fun kv => (kv.1, kv.2 / total))
    else m.signal_weights

/-- The `weighted_sum` before regime scaling (lines 90-97): weights times scores,
confidence deliberately not a factor. -/
def weightedScoreSum (weights : List (String × ℚ)) (trading_signals : List SignalResult) : ℚ :=
  (trading_signals.map (fun s => getWeight weights s.name * s.score)).sum

/-- The `base_confidence` value (line 135): weights times confidences. -/
def weightedConfSum (weights : List (String × ℚ)) (trading_signals : List SignalResult) : ℚ :=
  (trading_signals.map (fun s => s.confidence * getWeight weights s.name)).sum

/-- The `regime_multiplier` value: initialized to 1.0 and, when a regime signal is
present, replaced by its score clamped to [0, 1] (line 115). -/
def regimeMultiplierOf (regime_signal : Option SignalResult) : ℚ :=
  match regime_signal with
  | some r => max 0 (min 1 r.score)
  | none => 1

/-- The score-scaling block (lines 111-122), applied only when a regime
signal is present. -/
def applyScoreScale (m : EnsembleModel) (regime_signal : Option SignalResult)
    (weighted_sum : ℚ) : ℚ :=
  match regime_signal with
  | some _ =>
    let raw_score_scale : ℚ := if regimeMultiplierOf regime_signal < 0.5 then 0.5 else 1
    let score_scale := (1 - m.regime_weight) * 1 + m.regime_weight * raw_score_scale
    weighted_sum * score_scale
  | none => weighted_sum

/-- The direction rule (lines 125-130). -/
def directionOf (threshold weighted_sum : ℚ) : String :=
  if weighted_sum > threshold then "long"
  else if weighted_sum < -threshold then "short"
  else "flat"

/-- The confidence-scaling factor (lines 140-142). -/
def confScaleOf (m : EnsembleModel) (regime_multiplier : ℚ) : ℚ :=
  (1 - m.regime_weight) * 1 + m.regime_weight * (0.7 + 0.3 * regime_multiplier)

/-- Method `EnsembleModel.combine` from `app/models/ensemble.py` lines 43-175.
The regime signal is identified by the literal name `"Regime Filter"`
(line 69). -/
def EnsembleModel.combine (m : EnsembleModel) (signals : List SignalResult) : Forecast :=
  if signals = [] then
    { direction := "flat", confidence := 0,
      explanation := some { top_contributors := [], regime_filter := "No signals available" } }
  else
    let trading_signals := tradingSignalsOf signals
    let regime_signal := regimeSignalOf signals
    let weights := resolveWeights m trading_signals
    let contributors : List Contributor :=
      trading_signals.map (fun s =>
        { signal := s.name, contribution := getWeight weights s.name * s.score,
          score := s.score, confidence := s.confidence })
    let regime_description : String :=
      match regime_signal with
      | some r => descOr r.description
      | none => "Unknown regime"
    let weighted_sum := applyScoreScale m regime_signal (weightedScoreSum weights trading_signals)
    let direction := directionOf m.threshold weighted_sum
    let base_confidence : ℚ :=
      if trading_signals.length > 0 then weightedConfSum weights trading_signals else 0
    let conf_scale := confScaleOf m (regimeMultiplierOf regime_signal)
    let confidence : ℚ := max (min (base_confidence * conf_scale) 1) 0
    let suggested_position_size : ℚ :=
      if direction ≠ "flat" then min (confidence * |weighted_sum|) 1 else 0
    let contributors_sorted := sortContribDesc contributors
    { direction := direction, confidence := confidence,
      suggested_position_size := some suggested_position_size,
      explanation := some
        { top_contributors := (contributors_sorted.take 5).map (fun c => (c.signal, c.contribution)),
          regime_filter := regime_description } }

/-- The combination rule as amended claim C5 words it for a nonempty custom
mapping whose values sum to a non-positive number: the mapping is used
exactly as given — no equal-weight fallback, no normalization. Spec-side
definition, identical to `EnsembleModel.combine` except that the
weight-resolution step is the identity on `m.signal_weights`. -/
def EnsembleModel.combineRawWeights (m : EnsembleModel) (signals : List SignalResult) : Forecast :=
  if signals = [] then
    { direction := "flat", confidence := 0,
      explanation := some { top_contributors := [], regime_filter := "No signals available" } }
  else
    let trading_signals := tradingSignalsOf signals
    let regime_signal := regimeSignalOf signals
    let weights := m.signal_weights
    let contributors : List Contributor :=
      trading_signals.map (fun s =>
        { signal := s.name, contribution := getWeight weights s.name * s.score,
          score := s.score, confidence := s.confidence })
    let regime_description : String :=
      match regime_signal with
      | some r => descOr r.description
      | none => "Unknown regime"
    let weighted_sum := applyScoreScale m regime_signal (weightedScoreSum weights trading_signals)
    let direction := directionOf m.threshold weighted_sum
    let base_confidence : ℚ :=
      if trading_signals.length > 0 then weightedConfSum weights trading_signals else 0
    let conf_scale := confScaleOf m (regimeMultiplierOf regime_signal)
    let confidence : ℚ := max (min (base_confidence * conf_scale) 1) 0
    let suggested_position_size : ℚ :=
      if direction ≠ "flat" then min (confidence * |weighted_sum|) 1 else 0
    let contributors_sorted := sortContribDesc contributors
    { direction := direction, confidence := confidence,
      suggested_position_size := some suggested_position_size,
      explanation := some
        { top_contributors := (contributors_sorted.take 5).map (fun c => (c.signal, c.contribution)),
          regime_filter := regime_description } }

/-! ### app/core/config.py (Settings defaults read by the core) -/

def settingsTargetVolatility : ℚ := 0.01

def settingsMaxPositionSize : ℚ := 1.0

def settingsMaxLeverage : ℚ := 1.0

def settingsTransactionCostBps : ℝ := 5.0

def settingsSlippageFactor : ℝ := 0.001

/-- Python `x or default` on an optional numeric argument: `None` and `0`
are falsy and fall back to the default. -/
def orDefault (x : Option ℚ) (d : ℚ) : ℚ :=
  match x with
  | none => d
  | some v => if v = 0 then d else v

/-! ### app/portfolio/sizing.py -/

/-- Function `compute_position_size` from `app/portfolio/sizing.py` lines 14-66.
Note the early return: when `realized_volatility <= 0` the function returns
`forecast_confidence * 0.5` (a conservative default) and never reaches the
vol-floor division. -/
def compute_position_size (forecast_direction : String) (forecast_confidence : ℚ)
    (realized_volatility : ℚ) (target_volatility : Option ℚ := none)
    (max_position_size : Option ℚ := none) (vol_floor : ℚ := 1/1000000) : ℚ :=
  if forecast_direction = "flat" then 0
  else
    let target_vol := orDefault target_volatility settingsTargetVolatility
    let max_size := orDefault max_position_size settingsMaxPositionSize
    let realized_vol_safe := max realized_volatility vol_floor
    if realized_volatility ≤ 0 then forecast_confidence * 0.5
    else
      let vol_targeted_size := target_vol / realized_vol_safe
      let confidence_scaled_size := vol_targeted_size * forecast_confidence
      let position_size := min confidence_scaled_size max_size
      max position_size 0

/-- The sizing rule exactly as claim C4 words it: flat returns 0, otherwise
`(target_vol / max(realized_vol, vol_floor)) * confidence` clipped to
`[0, max_size]` — in particular the vol floor is claimed to serve as the
denominator when realized volatility is 0. Spec-side definition, for
comparison with the source-side `compute_position_size`. -/
def compute_position_size_claimC4 (forecast_direction : String) (forecast_confidence : ℚ)
    (realized_volatility : ℚ) (target_volatility : Option ℚ := none)
    (max_position_size : Option ℚ := none) (vol_floor : ℚ := 1/1000000) : ℚ :=
  if forecast_direction = "flat" then 0
  else
    let target_vol := orDefault target_volatility settingsTargetVolatility
    let max_size := orDefault max_position_size settingsMaxPositionSize
    max (min (target_vol / max realized_volatility vol_floor * forecast_confidence) max_size) 0

/-- The sizing rule as amended: identical to the claim's formula when
`realized_volatility > 0`, but flat direction yields 0 and non-positive
realized volatility yields the conservative default `confidence * 0.5`.
Spec-side definition for the amended claim C4. -/
def compute_position_size_amendedC4 (forecast_direction : String) (forecast_confidence : ℚ)
    (realized_volatility : ℚ) (target_volatility : Option ℚ := none)
    (max_position_size : Option ℚ := none) (vol_floor : ℚ := 1/1000000) : ℚ :=
  if forecast_direction = "flat" then 0
  else if realized_volatility ≤ 0 then forecast_confidence * 0.5
  else
    let target_vol := orDefault target_volatility settingsTargetVolatility
    let max_size := orDefault max_position_size settingsMaxPositionSize
    max (min (target_vol / max realized_volatility vol_floor * forecast_confidence) max_size) 0

/-! ### app/backtest/costs.py

The slippage term contains `np.sqrt`, so this component is modelled over `ℝ`
with `Real.sqrt`. -/

/-- The `TransactionCostModel` state after `__init__` (both constructor arguments
pass through Python `or`, so `None`/`0` fall back to the settings values). -/
structure TransactionCostModel where
  fixed_bps : ℝ
  slippage_factor : ℝ

/-- Python truthiness fallback for the real-valued constructor arguments. -/
noncomputable def orDefaultR (x : Option ℝ) (d : ℝ) : ℝ :=
  match x with
  | none => d
  | some v => if v = 0 then d else v

noncomputable def mkTransactionCostModel (fixed_bps : Option ℝ := none)
    (slippage_factor : Option ℝ := none) : TransactionCostModel :=
  { fixed_bps := orDefaultR fixed_bps settingsTransactionCostBps,
    slippage_factor := orDefaultR slippage_factor settingsSlippageFactor }

/-- Method `TransactionCostModel.compute_cost` from `app/backtest/costs.py` lines
32-68: zero on non-positive notional or price; otherwise the fixed cost
`trade_size * fixed_bps/10000` plus, when a volatility is supplied and the
day volume is positive, the slippage term
`slippage_factor * (vol * price) * sqrt(trade_size / (volume * price)) * trade_size`. -/
noncomputable def TransactionCostModel.compute_cost (m : TransactionCostModel)
    (trade_size price volume : ℝ) (volatility : Option ℝ := none) : ℝ :=
  if trade_size ≤ 0 ∨ price ≤ 0 then 0
  else
    trade_size * (m.fixed_bps / 10000) +
      (match volatility with
       | some vol =>
         if volume > 0 then
           m.slippage_factor * (vol * price) *
             Real.sqrt (trade_size / (volume * price)) * trade_size
         else 0
       | none => 0)

/-! ### app/portfolio/constraints.py -/

/-- The `RiskConstraints` state after `__init__` (`max_leverage` passes through
Python `or`, falling back to `settings.max_leverage`). -/
structure RiskConstraints where
  max_leverage : ℚ
  max_drawdown : Option ℚ := none
  max_daily_loss : Option ℚ := none
  turnover_threshold : ℚ := 0.1
deriving DecidableEq, Repr

def mkRiskConstraints (max_leverage : Option ℚ := none) (max_drawdown : Option ℚ := none)
    (max_daily_loss : Option ℚ := none) (turnover_threshold : ℚ := 0.1) : RiskConstraints :=
  { max_leverage := orDefault max_leverage settingsMaxLeverage,
    max_drawdown := max_drawdown, max_daily_loss := max_daily_loss,
    turnover_threshold := turnover_threshold }

/-- Method `RiskConstraints.apply_leverage_constraint` (the `current_position`
argument is accepted but not used by the body, exactly as in the source). -/
def RiskConstraints.apply_leverage_constraint (c : RiskConstraints)
    (position_size : ℚ) (current_position : ℚ := 0) : ℚ :=
  if |position_size| > c.max_leverage then
    if position_size > 0 then c.max_leverage else -c.max_leverage
  else position_size

/-- Method `RiskConstraints.check_drawdown_stop` from lines 59-81. -/
def RiskConstraints.check_drawdown_stop (c : RiskConstraints)
    (current_equity peak_equity : ℚ) : Bool :=
  match c.max_drawdown with
  | none => false
  | some mdd =>
    if peak_equity ≤ 0 then false
    else decide ((current_equity - peak_equity) / peak_equity ≤ mdd)

/-- Method `RiskConstraints.check_daily_loss_stop` from lines 83-105 (the
`initial_equity` argument is accepted but not used by the body). -/
def RiskConstraints.check_daily_loss_stop (c : RiskConstraints)
    (daily_return : ℚ) (initial_equity : ℚ) : Bool :=
  match c.max_daily_loss with
  | none => false
  | some m => decide (daily_return ≤ m)

/-- Method `RiskConstraints.should_trade` from lines 107-132. -/
def RiskConstraints.should_trade (c : RiskConstraints)
    (new_forecast old_forecast : String) (new_confidence old_confidence : ℚ) : Bool :=
  if new_forecast ≠ old_forecast then true
  else decide (|new_confidence - old_confidence| ≥ c.turnover_threshold)

/-! ### app/backtest/engine.py

`BacktestEngine.run` drives one step per bar. The embedding keeps the loop
control flow, risk checks, sizing, turnover gate, trade execution and
cash/position/cost-basis accounting of lines 106-379 verbatim, and abstracts
the injected ingredients exactly where the Python engine has injection points
or library calls:
* the cost model (`self.cost_model`, a constructor dependency) is a function
  argument `costFn trade_value price volume vol`;
* the per-bar forecast (`self.ensemble.combine(signal_results)`, where the
  signal results are a deterministic function of the bar prefix) is a
  function argument `forecastAt : ℕ → Forecast`;
* the pandas 20-day rolling annualized volatility of line 192 is a function
  argument `volAt : ℕ → Option ℚ`, `none` modelling NaN; the engine's own
  defaulting (`<= 0` or NaN becomes `0.2`, lines 193-194) stays in the loop.
Bars are indexed by position; the index plays the role of the date. -/

structure Bar where
  close : ℚ
  volume : ℚ
deriving DecidableEq, Repr

structure TradeRecord where
  date : ℕ
  action : String
  quantity : ℚ
  price : ℚ
  pnl : ℚ
  position_after : ℚ
deriving DecidableEq, Repr

structure EquityPoint where
  date : ℕ
  equity : ℚ
  drawdown : ℚ
deriving DecidableEq, Repr

/-- Result of the trade-execution block (engine lines 239-335): new cash,
position, cost-basis fields, the realized P&L of this trade, and the action. -/
structure TradeExecResult where
  cash : ℚ
  position : ℚ
  entry_value : ℚ
  entry_price : ℚ
  trade_pnl : ℚ
  action : String
deriving DecidableEq, Repr

/-- The engine's dust tolerance `1e-6`. -/
def eps : ℚ := 1/1000000

/-- Trade execution: engine lines 239-335, entered when
`abs(trade_shares) > 1e-6 and should_trade`. `position`, `entry_value`,
`entry_price` are the pre-trade values; `desired_shares` the post-trade
target. The four-way P&L case chain, the cost application, the buy/sell cash
update with its entry-price resets, and the final consistency repair are
modelled branch for branch (including the unreachable reverse `elif`, which
the closing case shadows). -/
def executeTrade (costFn : ℚ → ℚ → ℚ → ℚ → ℚ)
    (cash position entry_value entry_price : ℚ)
    (desired_shares current_price current_volume realized_vol : ℚ) : TradeExecResult :=
  let trade_shares := desired_shares - position
  let trade_value := |trade_shares * current_price|
  -- Case chain for realized P&L and cost basis (lines 246-300)
  let pnlCase : ℚ × ℚ × ℚ :=
    if |position| < eps then
      -- Case 1: opening a new position
      (0, |trade_shares| * current_price, current_price)
    else if (position > 0 ∧ trade_shares > 0) ∨ (position < 0 ∧ trade_shares < 0) then
      -- Case 2: adding in the same direction
      let additional_cost := |trade_shares| * current_price
      let ev := entry_value + additional_cost
      let new_position_size := |position| + |trade_shares|
      (0, ev, if new_position_size > 0 then ev / new_position_size else current_price)
    else if (position > 0 ∧ trade_shares < 0) ∨ (position < 0 ∧ trade_shares > 0) then
      -- Case 3: closing or reducing (covers reversals as well)
      let shares_closed := min |position| |trade_shares|
      let pnl :=
        if position > 0 then (current_price - entry_price) * shares_closed
        else (entry_price - current_price) * shares_closed
      if |trade_shares| < |position| then
        let remaining_fraction := (|position| - shares_closed) / |position|
        let ev := entry_value * remaining_fraction
        let remaining_shares := |position| - shares_closed
        (pnl, ev, if remaining_shares > 0 then ev / remaining_shares else 0)
      else
        (pnl, 0, 0)
    else if (position > 0 ∧ desired_shares < 0) ∨ (position < 0 ∧ desired_shares > 0) then
      -- Case 4: reversal branch (dead code: Case 3 already matches)
      let pnl :=
        if position > 0 then (current_price - entry_price) * |position|
        else (entry_price - current_price) * |position|
      (pnl, |desired_shares| * current_price, current_price)
    else
      -- no branch taken: Python leaves pnl at 0.0 and the fields unchanged
      (0, entry_value, entry_price)
  let trade_pnl := pnlCase.1
  let ev1 := pnlCase.2.1
  let ep1 := pnlCase.2.2
  let cost := costFn trade_value current_price current_volume realized_vol
  -- Buy/sell cash update and entry-price resets (lines 308-319)
  let afterCash : ℚ × String × ℚ :=
    if trade_shares > 0 then
      (cash - (trade_shares * current_price + cost), "buy",
       if |position| < eps ∨ (position < 0 ∧ desired_shares > 0) then current_price else ep1)
    else
      (cash - (trade_shares * current_price - cost), "sell",
       if |position| < eps ∨ (position > 0 ∧ desired_shares < 0) then current_price else ep1)
  let cash1 := afterCash.1
  let action := afterCash.2.1
  let ep2 := afterCash.2.2
  let position1 := desired_shares
  -- Consistency repair of the cost-basis fields (lines 324-335)
  let repaired : ℚ × ℚ :=
    if |position1| > eps then
      let ep3 := if |ep2| < eps then current_price else ep2
      let ev2 := if |ev1| < eps then |position1| * ep3 else ev1
      (ev2, if |position1| > eps then ev2 / |position1| else 0)
    else (0, 0)
  { cash := cash1, position := position1, entry_value := repaired.1,
    entry_price := repaired.2, trade_pnl := trade_pnl, action := action }

/-- Mutable state of one backtest run (engine lines 91-102) together with the
emitted histories and a flag recording that the loop was left by `break`. -/
structure RunState where
  cash : ℚ
  position : ℚ
  entry_value : ℚ
  entry_price : ℚ
  peak_equity : ℚ
  prev_forecast : String
  prev_confidence : ℚ
  equity_hist : List EquityPoint
  trades : List TradeRecord
  stopped : Bool
deriving DecidableEq, Repr

def initRunState (initial_capital : ℚ) : RunState :=
  { cash := initial_capital, position := 0, entry_value := 0, entry_price := 0,
    peak_equity := initial_capital, prev_forecast := "flat", prev_confidence := 0,
    equity_hist := [], trades := [], stopped := false }

/-- Close of the bar at index `i` (the loop always accesses indices inside
the list; the default is never read). -/
def barClose (bars : List Bar) (i : ℕ) : ℚ :=
  (bars.getD i { close := 0, volume := 0 }).close

/-- Volume of the bar at index `i`. -/
def barVolume (bars : List Bar) (i : ℕ) : ℚ :=
  (bars.getD i { close := 0, volume := 0 }).volume

/-- The warm-up bookkeeping (engine lines 110-123): record an equity point at
mark-to-market without updating the peak, and continue. -/
def recordWarmupEquity (s : RunState) (i : ℕ) (current_price : ℚ) : RunState :=
  let current_equity := s.cash + s.position * current_price
  let dd := if s.peak_equity > 0 then (current_equity - s.peak_equity) / s.peak_equity else 0
  { s with equity_hist :=
      s.equity_hist ++ [{ date := i, equity := current_equity, drawdown := dd }] }

/-- The engine's realized-volatility defaulting (lines 192-194): NaN or a
non-positive value becomes 0.2. -/
def realizedVolAt (volAt : ℕ → Option ℚ) (i : ℕ) : ℚ :=
  match volAt i with
  | none => 0.2
  | some v => if v ≤ 0 then 0.2 else v

/-- The pure sizing pipeline of lines 196-222: position size from the
forecast, leverage clamp, conversion to desired (signed) shares at the
current price. -/
def desiredSharesAt (constraints : RiskConstraints) (forecast : Forecast)
    (s : RunState) (current_price realized_vol : ℚ) : ℚ :=
  let position_size_pct :=
    compute_position_size forecast.direction forecast.confidence realized_vol
  let position_size_pct :=
    RiskConstraints.apply_leverage_constraint constraints position_size_pct
      (if s.cash + s.position * current_price > 0 then
        s.position / (s.cash + s.position * current_price) else 0)
  let current_equity := s.cash + s.position * current_price
  let desired_position_value := current_equity * position_size_pct
  let desired_shares :=
    if current_price > 0 then desired_position_value / current_price else 0
  if forecast.direction = "short" then -|desired_shares|
  else if forecast.direction = "long" then |desired_shares|
  else 0

/-- The trade block of lines 224-359: turnover gate, dust filter, and, when a
trade fires, execution plus the trade record (dated at the current bar). -/
def applyTradeIfNeeded (constraints : RiskConstraints) (costFn : ℚ → ℚ → ℚ → ℚ → ℚ)
    (forecast : Forecast) (s : RunState) (i : ℕ)
    (current_price current_volume realized_vol : ℚ) : RunState :=
  let desired_shares := desiredSharesAt constraints forecast s current_price realized_vol
  let should_trade := RiskConstraints.should_trade constraints
    forecast.direction s.prev_forecast forecast.confidence s.prev_confidence
  let trade_shares := desired_shares - s.position
  if |trade_shares| > eps ∧ should_trade then
    let ex := (executeTrade costFn s.cash s.position s.entry_value s.entry_price
      desired_shares current_price current_volume realized_vol)
    { s with
        cash := ex.cash
        position := ex.position
        entry_value := ex.entry_value
        entry_price := ex.entry_price
        trades := s.trades ++
          [{ date := i, action := ex.action, quantity := |trade_shares|,
             price := current_price, pnl := ex.trade_pnl,
             position_after := ex.position }] }
  else s

/-- Lines 365-379: mark-to-market, peak update, equity point (computed with
the updated peak). -/
def recordBarEquity (s : RunState) (i : ℕ) (current_price : ℚ) : RunState :=
  let current_equity := s.cash + s.position * current_price
  let peak := if current_equity > s.peak_equity then current_equity else s.peak_equity
  let dd := if peak > 0 then (current_equity - peak) / peak else 0
  { s with
      peak_equity := peak
      equity_hist := s.equity_hist ++
        [{ date := i, equity := current_equity, drawdown := dd }] }

/-- One iteration of the engine's per-bar loop (lines 106-379) at bar index
`i`. A `break` is modelled by setting `stopped`; a stopped state absorbs all
later steps. The out-of-money check of line 209-211 involves only pure values
and is hoisted before the (side-effect-free) sizing pipeline, which preserves
the source semantics. -/
def engineStep (constraints : RiskConstraints) (costFn : ℚ → ℚ → ℚ → ℚ → ℚ)
    (forecastAt : ℕ → Forecast) (volAt : ℕ → Option ℚ) (bars : List Bar)
    (s : RunState) (i : ℕ) : RunState :=
  if s.stopped then s
  else if i + 1 < 60 then recordWarmupEquity s i (barClose bars i)
  else if RiskConstraints.check_drawdown_stop constraints
      (s.cash + s.position * barClose bars i) s.peak_equity then
    { s with stopped := true }
  else if s.cash + s.position * barClose bars i ≤ 0 then { s with stopped := true }
  else
    recordBarEquity
      { applyTradeIfNeeded constraints costFn (forecastAt i) s i
          (barClose bars i) (barVolume bars i) (realizedVolAt volAt i) with
          prev_forecast := (forecastAt i).direction
          prev_confidence := (forecastAt i).confidence }
      i (barClose bars i)

/-- State after the first `k` bars of the run. -/
def runState (constraints : RiskConstraints) (costFn : ℚ → ℚ → ℚ → ℚ → ℚ)
    (forecastAt : ℕ → Forecast) (volAt : ℕ → Option ℚ) (bars : List Bar)
    (initial_capital : ℚ) (k : ℕ) : RunState :=
  (List.range k).foldl (engineStep constraints costFn forecastAt volAt bars)
    (initRunState initial_capital)

/-- Method `BacktestEngine.run`: the full loop over all bars; the equity curve and
trade log are the `equity_hist` and `trades` fields of the result (the
post-loop block of lines 381-396 only logs and does not alter them; metrics
are not needed by the claims). -/
def BacktestEngine.run (constraints : RiskConstraints) (costFn : ℚ → ℚ → ℚ → ℚ → ℚ)
    (forecastAt : ℕ → Forecast) (volAt : ℕ → Option ℚ) (bars : List Bar)
    (initial_capital : ℚ := 100000) : RunState :=
  runState constraints costFn forecastAt volAt bars initial_capital bars.length

/-! ### app/data/normalize.py

`normalize_ohlcv` receives a raw table. Column renaming is a no-op in the
model (fields are already named); date parsing and numeric coercion are
modelled by `Option`-valued fields (`none` = unparseable/NaN), and the two
`dropna` calls drop rows with a `none`. Dates are modelled as naturals.
`df.sort_values("date")` runs with pandas' default `kind="quicksort"`, which
the pandas documentation does not guarantee to be stable, so the relative
order of rows sharing a date after the sort is unspecified: the sort is
modelled relationally by `sortsByDate` (any date-ordered permutation), and
the normalizer by the relation `normalizeOutcome` over all admissible sort
outcomes. `sortRowsByDate` is one admissible outcome (the stable one) and
gives the executable instance `normalize_ohlcv`. The warning bookkeeping
(lines 115-159) does not modify the frame and is omitted. -/

/-- A raw input row after `pd.to_datetime(..., errors="coerce")` and
`pd.to_numeric(..., errors="coerce")`: `none` marks an unparseable value.
`open` is a Lean keyword, hence the field name `open_`. -/
structure RawRow where
  date : Option ℕ
  open_ : Option ℚ
  high : Option ℚ
  low : Option ℚ
  close : Option ℚ
  volume : Option ℚ
deriving DecidableEq, Repr

structure OhlcvRow where
  date : ℕ
  open_ : ℚ
  high : ℚ
  low : ℚ
  close : ℚ
  volume : ℚ
deriving DecidableEq, Repr

/-- The two `dropna` calls (lines 53 and 61): a row survives iff every
required field parsed. -/
def validRow? (r : RawRow) : Option OhlcvRow :=
  match r.date, r.open_, r.high, r.low, r.close, r.volume with
  | some d, some o, some h, some l, some c, some v =>
    some { date := d, open_ := o, high := h, low := l, close := c, volume := v }
  | _, _, _, _, _, _ => none

def validRows (rows : List RawRow) : List OhlcvRow :=
  rows.filterMap validRow?

/-- Stable insertion by date: a row is placed before the first row of
date ≥ its own, so rows of equal date keep their relative order. -/
def insertRowByDate (x : OhlcvRow) : List OhlcvRow → List OhlcvRow
  | [] => [x]
  | y :: ys => if x.date ≤ y.date then x :: y :: ys else y :: insertRowByDate x ys

/-- One admissible outcome of `df.sort_values("date")`: the stable insertion
sort. Used as the executable instance, and directly only where stability is
irrelevant (lists whose dates are pairwise distinct, where every admissible
sort outcome coincides with it). -/
def sortRowsByDate : List OhlcvRow → List OhlcvRow
  | [] => []
  | x :: xs => insertRowByDate x (sortRowsByDate xs)

/-- The contract pandas guarantees for `df.sort_values("date")` with the
default `kind="quicksort"`: the output is a permutation of the input that is
non-decreasing in date. The default kind is not documented as stable, so
nothing constrains the relative order of rows sharing a date. -/
def sortsByDate (l s : List OhlcvRow) : Prop :=
  l.Perm s ∧ s.Pairwise (fun a b => a.date ≤ b.date)

/-- Python `df.drop_duplicates(subset=["date"], keep="last")` (line 80): a row is
kept iff no later row shares its date; order is preserved. -/
def dedupKeepLast : List OhlcvRow → List OhlcvRow
  | [] => []
  | r :: t =>
    if t.any (fun x => decide (x.date = r.date)) then dedupKeepLast t
    else r :: dedupKeepLast t

/-- The in-place repairs of lines 89-113. Both invalidity masks are computed
on the incoming values (lines 90-91); the high repair (line 97) uses the
original low, then the low repair (line 104) uses the already-repaired high,
matching the statement order of the source. -/
def repairRow (r : OhlcvRow) : OhlcvRow :=
  let invalid_high := r.high < max r.open_ (max r.close r.low)
  let invalid_low := r.low > min r.open_ (min r.close r.high)
  let high1 := if invalid_high then max r.open_ (max r.close r.low) else r.high
  let low1 := if invalid_low then min r.open_ (min r.close high1) else r.low
  let volume1 := if r.volume < 0 then 0 else r.volume
  { r with high := high1, low := low1, volume := volume1 }

/-- Function `normalize_ohlcv` (lines 10-161): drop unparseable rows, sort by date,
dedup keeping the last row per date, sort again, repair OHLC/volume. This is
the executable instance obtained by realizing both sorts with the stable
`sortRowsByDate`. -/
def normalize_ohlcv (input : List RawRow) : List OhlcvRow :=
  let vs := validRows input
  let sorted1 := sortRowsByDate vs
  let deduped := dedupKeepLast sorted1
  let sorted2 := sortRowsByDate deduped
  sorted2.map repairRow

/-- Function `normalize_ohlcv` as a relation over all admissible behaviours of
the unspecified-stability sorts: `output` is a possible return value of the
normalizer on `input` iff some admissible `sort_values` outcome `s` of the
valid rows and some admissible sort outcome `t` of the deduplicated rows
produce it. (After `drop_duplicates` dates are pairwise distinct, so `t` is in
fact uniquely determined; only the choice of `s` matters.) -/
def normalizeOutcome (input : List RawRow) (output : List OhlcvRow) : Prop :=
  ∃ s t, sortsByDate (validRows input) s ∧ sortsByDate (dedupKeepLast s) t ∧
    output = t.map repairRow

/-! ### Concrete instances used to exercise the embedding -/

/-- A cost-model dependency that charges nothing (the engine takes the cost
model as a constructor dependency, so any cost function can be injected). -/
def zeroCostModel : ℚ → ℚ → ℚ → ℚ → ℚ := fun _ _ _ _ => 0

/-- A forecast stream that is always fully-confident long. -/
def constLongForecast : ℕ → Forecast :=
  fun _ => { direction := "long", confidence := 1 }

/-- A forecast stream that is fully-confident long and flips to short from
bar 62 on. -/
def flipAt62Forecast : ℕ → Forecast :=
  fun i => if 62 ≤ i then { direction := "short", confidence := 1 }
           else { direction := "long", confidence := 1 }

/-- A rolling-volatility stream that is NaN on every bar, so the engine's
0.2 default applies throughout. -/
def noVolSeries : ℕ → Option ℚ := fun _ => none

/-- Sixty-one bars at close 100 followed by one bar at close 50. -/
def barsDrop62 : List Bar :=
  List.replicate 61 { close := 100, volume := 1000 } ++ [{ close := 50, volume := 1000 }]

/-- Sixty-one bars at close 100 followed by two bars at close 50. -/
def barsDrop63 : List Bar :=
  List.replicate 61 { close := 100, volume := 1000 } ++
    [{ close := 50, volume := 1000 }, { close := 50, volume := 1000 }]

/-- Constraints with a -2% drawdown stop configured. -/
def drawdownStopConstraints : RiskConstraints :=
  mkRiskConstraints none (some (-1/50)) none (1/10)

/-- Constraints with a -2% daily-loss stop configured (and no drawdown stop). -/
def dailyLossStopConstraints : RiskConstraints :=
  mkRiskConstraints none none (some (-1/50)) (1/10)

/-- The normalization-repair scenario: three raw rows, the first two sharing
date 1 (first has high < close and negative volume), the third at date 2. -/
def rawRowsRepairDedup : List RawRow :=
  [{ date := some 1, open_ := some 10, high := some 9, low := some 8,
     close := some 10, volume := some (-5) },
   { date := some 1, open_ := some 10, high := some 11, low := some 9,
     close := some 10, volume := some 100 },
   { date := some 2, open_ := some 10, high := some 15, low := some 9,
     close := some 14, volume := some 100 }]

/-- First raw row of the duplicate-date pair: date 1, volume 100. -/
def dupRowFirst : RawRow :=
  { date := some 1, open_ := some 10, high := some 11, low := some 9,
    close := some 10, volume := some 100 }

/-- Second raw row of the duplicate-date pair: date 1 again, but different
close and volume, so the two rows stay distinguishable after repair. -/
def dupRowSecond : RawRow :=
  { date := some 1, open_ := some 10, high := some 12, low := some 8,
    close := some 11, volume := some 50 }

/-- The parsed image of `dupRowFirst`. -/
def dupOhlcvFirst : OhlcvRow :=
  { date := 1, open_ := 10, high := 11, low := 9, close := 10, volume := 100 }

/-- The parsed image of `dupRowSecond`. -/
def dupOhlcvSecond : OhlcvRow :=
  { date := 1, open_ := 10, high := 12, low := 8, close := 11, volume := 50 }

end SimonStrat

namespace SimonStrat

/-! ## Theorems -/

/-- Claim C1 (code bug): the engine's three built-in signals are named
"Trend (recent price strength)", "Pullback vs average" and
"Market Regime (trend/vol filter)", but `EnsembleModel.combine` separates the
regime gate by matching the literal name "Regime Filter". In the engine
pipeline the partition therefore never fires: with both trading scores at 0
and the regime score at 0.9, the default ensemble returns direction "long" —
the regime score entered `weighted_sum` as a trading signal — whereas a
signal actually named "Regime Filter" with the same score yields "flat". -/
theorem C1_regime_not_partitioned_in_engine_pipeline :
    (EnsembleModel.combine {}
      [{ name := momentumSignalName, score := 0, confidence := 0 },
       { name := meanReversionSignalName, score := 0, confidence := 0 },
       { name := regimeFilterSignalName, score := 9/10, confidence := 9/10 }]).direction
      = "long" ∧
    (EnsembleModel.combine {}
      [{ name := momentumSignalName, score := 0, confidence := 0 },
       { name := meanReversionSignalName, score := 0, confidence := 0 },
       { name := "Regime Filter", score := 9/10, confidence := 9/10 }]).direction
      = "flat" := by
  constructor <;> with_unfolding_all decide

/-- Claim C4 counterexample: at zero realized volatility the code returns
`confidence * 0.5` (= 0.4 for confidence 0.8), not the claim's
vol-floor formula (= 1 after clipping). -/
theorem C4_counterexample :
    compute_position_size "long" (4/5) 0 (some (1/100)) (some 1) (1/1000000) = 2/5 ∧
    compute_position_size_claimC4 "long" (4/5) 0 (some (1/100)) (some 1) (1/1000000) = 1 ∧
    (2/5 : ℚ) ≠ 1 := by
  refine ⟨?_, ?_, ?_⟩ <;> with_unfolding_all decide

/-- Claim C4 as amended: flat direction returns 0; non-positive realized
volatility returns the conservative default `confidence * 0.5` (the vol
floor is never the denominator there); for positive realized volatility the
size is `(target_vol / max(realized_vol, vol_floor)) * confidence` clipped
to `[0, max_size]`. -/
theorem C4_position_size_amended (forecast_direction : String)
    (forecast_confidence realized_volatility : ℚ)
    (target_volatility max_position_size : Option ℚ) (vol_floor : ℚ) :
    compute_position_size forecast_direction forecast_confidence realized_volatility
        target_volatility max_position_size vol_floor =
      compute_position_size_amendedC4 forecast_direction forecast_confidence
        realized_volatility target_volatility max_position_size vol_floor := by
  unfold compute_position_size compute_position_size_amendedC4
  by_cases hd : forecast_direction = "flat"
  · simp [hd]
  · by_cases hr : realized_volatility ≤ 0 <;> simp [hd, hr]

/-- Claim C5 counterexample: a custom mapping assigning weight 0 to both
trading signals sums to 0 ≤ 0, yet the forecast is "flat" while the
no-mapping forecast on the same signals is "long": the code used the
mapping unnormalized instead of falling back to equal weights. -/
theorem C5_counterexample :
    (((EnsembleModel.mk [(momentumSignalName, 0), (meanReversionSignalName, 0)]
        (3/10) (1/10)).signal_weights.map (fun kv => kv.2)).sum ≤ 0) ∧
    (EnsembleModel.combine
      (EnsembleModel.mk [(momentumSignalName, 0), (meanReversionSignalName, 0)] (3/10) (1/10))
      [{ name := momentumSignalName, score := 4/5, confidence := 9/10 },
       { name := meanReversionSignalName, score := -1/2, confidence := 9/10 }]).direction
      = "flat" ∧
    (EnsembleModel.combine {}
      [{ name := momentumSignalName, score := 4/5, confidence := 9/10 },
       { name := meanReversionSignalName, score := -1/2, confidence := 9/10 }]).direction
      = "long" := by
  refine ⟨?_, ?_, ?_⟩ <;> with_unfolding_all decide

/-- Claim C5 as amended: only an empty/missing custom mapping triggers the
equal-weight fallback; a nonempty mapping whose values sum to ≤ 0 is used
exactly as given (no normalization, no fallback), so `combine` agrees with
the raw-weight combination rule. -/
theorem C5_nonpositive_weights_used_unnormalized (m : EnsembleModel)
    (signals : List SignalResult) (h1 : m.signal_weights ≠ [])
    (h2 : (m.signal_weights.map (fun kv => kv.2)).sum ≤ 0) :
    m.combine signals = m.combineRawWeights signals := by
  have hw : ∀ ts, resolveWeights m ts = m.signal_weights := by
    intro ts
    unfold resolveWeights
    rw [if_neg h1, if_neg (not_lt.mpr h2)]
  unfold EnsembleModel.combine EnsembleModel.combineRawWeights
  simp only [hw]

/-- Witness for `C5_nonpositive_weights_used_unnormalized` at the concrete
zero-weight mapping. -/
theorem C5_witness :
    ((EnsembleModel.mk [(momentumSignalName, 0), (meanReversionSignalName, 0)]
        (3/10) (1/10)).signal_weights ≠ [] ∧
      ((EnsembleModel.mk [(momentumSignalName, 0), (meanReversionSignalName, 0)]
        (3/10) (1/10)).signal_weights.map (fun kv => kv.2)).sum ≤ 0) ∧
    EnsembleModel.combine
        (EnsembleModel.mk [(momentumSignalName, 0), (meanReversionSignalName, 0)] (3/10) (1/10))
        [{ name := momentumSignalName, score := 4/5, confidence := 9/10 }] =
      EnsembleModel.combineRawWeights
        (EnsembleModel.mk [(momentumSignalName, 0), (meanReversionSignalName, 0)] (3/10) (1/10))
        [{ name := momentumSignalName, score := 4/5, confidence := 9/10 }] :=
  ⟨⟨by with_unfolding_all decide, by with_unfolding_all decide⟩,
    C5_nonpositive_weights_used_unnormalized _ _ (by with_unfolding_all decide)
      (by with_unfolding_all decide)⟩

/-! ### Engine loop lemmas (shared) -/

/-- A stopped run state absorbs every later step (the loop was left by
`break`). -/
theorem engineStep_of_stopped (C : RiskConstraints) (costFn : ℚ → ℚ → ℚ → ℚ → ℚ)
    (f : ℕ → Forecast) (v : ℕ → Option ℚ) (bars : List Bar) (s : RunState) (i : ℕ)
    (h : s.stopped = true) : engineStep C costFn f v bars s i = s := by
  unfold engineStep
  rw [h]
  rw [if_pos rfl]

/-- The warm-up record appends one equity point dated `i` and leaves the
trade log and the stop flag alone. -/
theorem recordWarmupEquity_emits (s : RunState) (i : ℕ) (p : ℚ) :
    ∃ pt : EquityPoint, pt.date = i ∧
      (recordWarmupEquity s i p).equity_hist = s.equity_hist ++ [pt] ∧
      (recordWarmupEquity s i p).trades = s.trades ∧
      (recordWarmupEquity s i p).stopped = s.stopped :=
  ⟨_, rfl, rfl, rfl, rfl⟩

/-- The per-bar record appends one equity point dated `i` and leaves the
trade log and the stop flag alone. -/
theorem recordBarEquity_emits (s : RunState) (i : ℕ) (p : ℚ) :
    ∃ pt : EquityPoint, pt.date = i ∧
      (recordBarEquity s i p).equity_hist = s.equity_hist ++ [pt] ∧
      (recordBarEquity s i p).trades = s.trades ∧
      (recordBarEquity s i p).stopped = s.stopped :=
  ⟨_, rfl, rfl, rfl, rfl⟩

/-- The trade block never touches the equity history. -/
theorem applyTradeIfNeeded_equity_hist (C : RiskConstraints) (costFn : ℚ → ℚ → ℚ → ℚ → ℚ)
    (fc : Forecast) (s : RunState) (i : ℕ) (p vol rv : ℚ) :
    (applyTradeIfNeeded C costFn fc s i p vol rv).equity_hist = s.equity_hist := by
  simp only [applyTradeIfNeeded]
  split <;> rfl

/-- The trade block never touches the stop flag. -/
theorem applyTradeIfNeeded_stopped (C : RiskConstraints) (costFn : ℚ → ℚ → ℚ → ℚ → ℚ)
    (fc : Forecast) (s : RunState) (i : ℕ) (p vol rv : ℚ) :
    (applyTradeIfNeeded C costFn fc s i p vol rv).stopped = s.stopped := by
  simp only [applyTradeIfNeeded]
  split <;> rfl

/-- The trade block either leaves the trade log alone or appends exactly one
trade record dated at the current bar. -/
theorem applyTradeIfNeeded_trades (C : RiskConstraints) (costFn : ℚ → ℚ → ℚ → ℚ → ℚ)
    (fc : Forecast) (s : RunState) (i : ℕ) (p vol rv : ℚ) :
    (applyTradeIfNeeded C costFn fc s i p vol rv).trades = s.trades ∨
    ∃ tr : TradeRecord, tr.date = i ∧
      (applyTradeIfNeeded C costFn fc s i p vol rv).trades = s.trades ++ [tr] := by
  simp only [applyTradeIfNeeded]
  split
  · exact Or.inr ⟨_, rfl, rfl⟩
  · exact Or.inl rfl

/-- Each non-stopping iteration of the loop appends exactly one equity point
dated at the current bar and at most one trade record dated at the current
bar; a stopping iteration appends nothing and raises the stop flag. -/
theorem engineStep_emits (C : RiskConstraints) (costFn : ℚ → ℚ → ℚ → ℚ → ℚ)
    (f : ℕ → Forecast) (v : ℕ → Option ℚ) (bars : List Bar) (s : RunState) (i : ℕ)
    (hs : s.stopped = false) :
    (engineStep C costFn f v bars s i).stopped = true ∨
    (∃ pt : EquityPoint, pt.date = i ∧
        (engineStep C costFn f v bars s i).equity_hist = s.equity_hist ++ [pt]) ∧
      ((engineStep C costFn f v bars s i).trades = s.trades ∨
        ∃ tr : TradeRecord, tr.date = i ∧
          (engineStep C costFn f v bars s i).trades = s.trades ++ [tr]) := by
  unfold engineStep
  rw [hs]
  rw [if_neg (fun h => Bool.noConfusion h)]
  by_cases h60 : i + 1 < 60
  · rw [if_pos h60]
    obtain ⟨pt, hd, he, ht, _⟩ := recordWarmupEquity_emits s i (barClose bars i)
    exact Or.inr ⟨⟨pt, hd, he⟩, Or.inl ht⟩
  · rw [if_neg h60]
    by_cases hdd : RiskConstraints.check_drawdown_stop C
        (s.cash + s.position * barClose bars i) s.peak_equity = true
    · rw [if_pos hdd]
      exact Or.inl rfl
    · rw [if_neg hdd]
      by_cases hz : s.cash + s.position * barClose bars i ≤ 0
      · rw [if_pos hz]
        exact Or.inl rfl
      · rw [if_neg hz]
        obtain ⟨pt, hd, he, ht, _⟩ := recordBarEquity_emits
          { applyTradeIfNeeded C costFn (f i) s i
              (barClose bars i) (barVolume bars i) (realizedVolAt v i) with
              prev_forecast := (f i).direction
              prev_confidence := (f i).confidence }
          i (barClose bars i)
        refine Or.inr ⟨⟨pt, hd, ?_⟩, ?_⟩
        · rw [he]
          have h2 : ({ applyTradeIfNeeded C costFn (f i) s i
              (barClose bars i) (barVolume bars i) (realizedVolAt v i) with
              prev_forecast := (f i).direction
              prev_confidence := (f i).confidence } : RunState).equity_hist
              = s.equity_hist := applyTradeIfNeeded_equity_hist C costFn (f i) s i _ _ _
          rw [h2]
        · rw [ht]
          have h3 : ({ applyTradeIfNeeded C costFn (f i) s i
              (barClose bars i) (barVolume bars i) (realizedVolAt v i) with
              prev_forecast := (f i).direction
              prev_confidence := (f i).confidence } : RunState).trades
              = (applyTradeIfNeeded C costFn (f i) s i
                  (barClose bars i) (barVolume bars i) (realizedVolAt v i)).trades := rfl
          rw [h3]
          exact applyTradeIfNeeded_trades C costFn (f i) s i _ _ _

/-- Unrolling the run by one bar. -/
theorem runState_succ (C : RiskConstraints) (costFn : ℚ → ℚ → ℚ → ℚ → ℚ)
    (f : ℕ → Forecast) (v : ℕ → Option ℚ) (bars : List Bar) (cap : ℚ) (k : ℕ) :
    runState C costFn f v bars cap (k + 1)
      = engineStep C costFn f v bars (runState C costFn f v bars cap k) k := by
  unfold runState
  rw [List.range_succ, List.foldl_append]
  rfl

/-- Once the loop has been left, the state never changes again. -/
theorem runState_frozen (C : RiskConstraints) (costFn : ℚ → ℚ → ℚ → ℚ → ℚ)
    (f : ℕ → Forecast) (v : ℕ → Option ℚ) (bars : List Bar) (cap : ℚ) (k j : ℕ)
    (hk : (runState C costFn f v bars cap k).stopped = true) (hkj : k ≤ j) :
    runState C costFn f v bars cap j = runState C costFn f v bars cap k := by
  obtain ⟨d, rfl⟩ := Nat.exists_eq_add_of_le hkj
  induction d with
  | zero => rfl
  | succ n ih =>
    rw [← Nat.add_assoc, runState_succ, ih (Nat.le_add_right k n),
      engineStep_of_stopped _ _ _ _ _ _ _ hk]

/-- While the loop has not been left, it has recorded exactly one equity
point per bar, dated 0,1,...,k-1 in order, and every recorded trade is dated
before the current bar. -/
theorem runState_histories (C : RiskConstraints) (costFn : ℚ → ℚ → ℚ → ℚ → ℚ)
    (f : ℕ → Forecast) (v : ℕ → Option ℚ) (bars : List Bar) (cap : ℚ) :
    ∀ k, (runState C costFn f v bars cap k).stopped = false →
      (runState C costFn f v bars cap k).equity_hist.map (fun p => p.date) = List.range k ∧
      ∀ tr ∈ (runState C costFn f v bars cap k).trades, tr.date < k := by
  intro k
  induction k with
  | zero =>
    intro _
    exact ⟨rfl, by intro tr htr; simp [runState, initRunState] at htr⟩
  | succ n ih =>
    intro h
    rw [runState_succ] at h
    by_cases hn : (runState C costFn f v bars cap n).stopped = true
    · rw [engineStep_of_stopped _ _ _ _ _ _ _ hn] at h
      rw [hn] at h
      exact Bool.noConfusion h
    · have hn' : (runState C costFn f v bars cap n).stopped = false := by
        revert hn; cases (runState C costFn f v bars cap n).stopped <;> simp
      obtain ⟨IH1, IH2⟩ := ih hn'
      rcases engineStep_emits C costFn f v bars _ n hn' with hstop | ⟨⟨pt, hdate, heq⟩, htr⟩
      · rw [hstop] at h
        exact Bool.noConfusion h
      · constructor
        · rw [runState_succ, heq, List.map_append, IH1, List.range_succ]
          rw [show List.map (fun p : EquityPoint => p.date) [pt] = [pt.date] from rfl, hdate]
        · intro tr htr2
          rw [runState_succ] at htr2
          rcases htr with hsame | ⟨tr2, hdate, happ⟩
          · rw [hsame] at htr2
            exact Nat.lt_succ_of_lt (IH2 tr htr2)
          · rw [happ] at htr2
            rcases List.mem_append.mp htr2 with hin | hin
            · exact Nat.lt_succ_of_lt (IH2 tr hin)
            · have heqtr : tr = tr2 := List.mem_singleton.mp hin
              rw [heqtr, hdate]
              exact Nat.lt_succ_self n

attribute [local semireducible] Rat.add Rat.sub Rat.mul Rat.inv Rat.ofScientific in
set_option maxRecDepth 8000 in
/-- Claim C2 counterexample: in a run configured with `max_daily_loss = -2%`
(no drawdown stop, zero-cost model, always-confident forecasts that flip to
short at bar 62), the equity curve moves from 100000 at bar 60 to 97500 at
bar 61 — a single-day return of -2.5% ≤ -2%, on which
`check_daily_loss_stop` would fire — yet the trade log contains a trade
dated after bar 61: the engine never consults the daily-loss stop, so the
run is not halted. -/
theorem C2_counterexample :
    dailyLossStopConstraints.max_daily_loss = some (-1/50) ∧
    ((BacktestEngine.run dailyLossStopConstraints zeroCostModel flipAt62Forecast
        noVolSeries barsDrop63 100000).equity_hist.map (fun p => p.equity)).getD 60 0
      = 100000 ∧
    ((BacktestEngine.run dailyLossStopConstraints zeroCostModel flipAt62Forecast
        noVolSeries barsDrop63 100000).equity_hist.map (fun p => p.equity)).getD 61 0
      = 97500 ∧
    ((97500 - 100000) / 100000 : ℚ) ≤ -1/50 ∧
    RiskConstraints.check_daily_loss_stop dailyLossStopConstraints
      ((97500 - 100000) / 100000) 100000 = true ∧
    (BacktestEngine.run dailyLossStopConstraints zeroCostModel flipAt62Forecast
        noVolSeries barsDrop63 100000).trades.any (fun tr => decide (61 < tr.date))
      = true := by
  refine ⟨?_, ?_, ?_, ?_, ?_, ?_⟩ <;> decide

/-- Claim C2 as amended: `RiskConstraints.check_daily_loss_stop` does return
`true` whenever a threshold is configured and the single-day return is at or
below it, but `BacktestEngine.run` never invokes that check — the run's
output does not depend on `max_daily_loss` at all, so the stop never halts
trading. -/
theorem C2_daily_loss_checked_but_never_halts :
    (∀ (c : RiskConstraints) (m daily_return initial_equity : ℚ),
        c.max_daily_loss = some m → daily_return ≤ m →
        c.check_daily_loss_stop daily_return initial_equity = true) ∧
    (∀ (max_leverage : ℚ) (max_drawdown mdl mdl' : Option ℚ) (turnover_threshold : ℚ)
        (costFn : ℚ → ℚ → ℚ → ℚ → ℚ) (forecastAt : ℕ → Forecast) (volAt : ℕ → Option ℚ)
        (bars : List Bar) (cap : ℚ),
        BacktestEngine.run
            { max_leverage := max_leverage, max_drawdown := max_drawdown,
              max_daily_loss := mdl, turnover_threshold := turnover_threshold }
            costFn forecastAt volAt bars cap =
        BacktestEngine.run
            { max_leverage := max_leverage, max_drawdown := max_drawdown,
              max_daily_loss := mdl', turnover_threshold := turnover_threshold }
            costFn forecastAt volAt bars cap) := by
  constructor
  · intro c m daily_return initial_equity hc hle
    unfold RiskConstraints.check_daily_loss_stop
    rw [hc]
    exact decide_eq_true hle
  · intro ml mdd mdl mdl' tt costFn f v bars cap
    rfl

attribute [local semireducible] Rat.add Rat.sub Rat.mul Rat.inv Rat.ofScientific in
set_option maxRecDepth 8000 in
/-- Witness for `C2_daily_loss_checked_but_never_halts` at concrete inputs. -/
theorem C2_witness :
    dailyLossStopConstraints.max_daily_loss = some (-1/50) ∧ ((-1/40 : ℚ) ≤ -1/50) ∧
    RiskConstraints.check_daily_loss_stop dailyLossStopConstraints (-1/40) 100000 = true ∧
    BacktestEngine.run
        { max_leverage := 1, max_drawdown := none, max_daily_loss := some (-1/50),
          turnover_threshold := 1/10 }
        zeroCostModel constLongForecast noVolSeries barsDrop62 100000 =
      BacktestEngine.run
        { max_leverage := 1, max_drawdown := none, max_daily_loss := none,
          turnover_threshold := 1/10 }
        zeroCostModel constLongForecast noVolSeries barsDrop62 100000 :=
  ⟨by decide, by norm_num,
    C2_daily_loss_checked_but_never_halts.1 dailyLossStopConstraints (-1/50) (-1/40) 100000
      (by decide) (by norm_num),
    C2_daily_loss_checked_but_never_halts.2 1 none (some (-1/50)) none (1/10)
      zeroCostModel constLongForecast noVolSeries barsDrop62 100000⟩

attribute [local semireducible] Rat.add Rat.sub Rat.mul Rat.inv Rat.ofScientific in
set_option maxRecDepth 8000 in
/-- Claim C3 counterexample: with a -2% drawdown stop, zero costs and an
always-long forecast over 61 bars at 100 followed by one bar at 50, the stop
triggers at bar 61 (the state entering bar 61 is not stopped and the
drawdown check fires there), yet the equity curve records dates 0..60 only:
the point for bar 61 — the claim's "up to and including bar t" — is never
emitted, because the loop breaks before recording. -/
theorem C3_counterexample :
    (runState drawdownStopConstraints zeroCostModel constLongForecast noVolSeries
        barsDrop62 100000 61).stopped = false ∧
    RiskConstraints.check_drawdown_stop drawdownStopConstraints
      ((runState drawdownStopConstraints zeroCostModel constLongForecast noVolSeries
          barsDrop62 100000 61).cash +
        (runState drawdownStopConstraints zeroCostModel constLongForecast noVolSeries
          barsDrop62 100000 61).position * barClose barsDrop62 61)
      (runState drawdownStopConstraints zeroCostModel constLongForecast noVolSeries
          barsDrop62 100000 61).peak_equity = true ∧
    (BacktestEngine.run drawdownStopConstraints zeroCostModel constLongForecast noVolSeries
        barsDrop62 100000).equity_hist.map (fun p => p.date) = List.range 61 ∧
    ((BacktestEngine.run drawdownStopConstraints zeroCostModel constLongForecast noVolSeries
        barsDrop62 100000).equity_hist.map (fun p => p.date)).contains 61 = false := by
  refine ⟨?_, ?_, ?_, ?_⟩ <;> decide

/-- Claim C3 as amended: when the drawdown stop triggers at bar `t` (the
state entering bar `t` is unstopped, the bar is past warm-up, and the check
fires on bar `t`'s close), the equity curve holds exactly one point per bar
strictly before `t` — none for bar `t` itself — and every trade is dated
strictly before `t`. -/
theorem C3_drawdown_halt_histories (C : RiskConstraints) (costFn : ℚ → ℚ → ℚ → ℚ → ℚ)
    (f : ℕ → Forecast) (v : ℕ → Option ℚ) (bars : List Bar) (cap : ℚ) (t : ℕ)
    (ht : t < bars.length) (hwarm : 60 ≤ t + 1)
    (hrun : (runState C costFn f v bars cap t).stopped = false)
    (htrig : RiskConstraints.check_drawdown_stop C
      ((runState C costFn f v bars cap t).cash +
        (runState C costFn f v bars cap t).position * barClose bars t)
      (runState C costFn f v bars cap t).peak_equity = true) :
    (BacktestEngine.run C costFn f v bars cap).equity_hist.map (fun p => p.date)
        = List.range t ∧
    ∀ tr ∈ (BacktestEngine.run C costFn f v bars cap).trades, tr.date < t := by
  have hstept : runState C costFn f v bars cap (t + 1)
      = { runState C costFn f v bars cap t with stopped := true } := by
    rw [runState_succ]
    unfold engineStep
    rw [hrun]
    rw [if_neg (fun h => Bool.noConfusion h)]
    rw [if_neg (by omega : ¬ (t + 1 < 60))]
    rw [if_pos htrig]
  have hst : (runState C costFn f v bars cap (t + 1)).stopped = true := by
    rw [hstept]
  have hfrozen := runState_frozen C costFn f v bars cap (t + 1) bars.length hst (by omega)
  have hhist := runState_histories C costFn f v bars cap t hrun
  unfold BacktestEngine.run
  rw [hfrozen, hstept]
  exact ⟨hhist.1, hhist.2⟩

attribute [local semireducible] Rat.add Rat.sub Rat.mul Rat.inv Rat.ofScientific in
set_option maxRecDepth 8000 in
/-- Witness for `C3_drawdown_halt_histories` at the concrete drawdown run. -/
theorem C3_witness :
    (61 < barsDrop62.length ∧ 60 ≤ 61 + 1 ∧
      (runState drawdownStopConstraints zeroCostModel constLongForecast noVolSeries
          barsDrop62 100000 61).stopped = false) ∧
    ((BacktestEngine.run drawdownStopConstraints zeroCostModel constLongForecast noVolSeries
        barsDrop62 100000).equity_hist.map (fun p => p.date) = List.range 61 ∧
      ∀ tr ∈ (BacktestEngine.run drawdownStopConstraints zeroCostModel constLongForecast
          noVolSeries barsDrop62 100000).trades, tr.date < 61) :=
  ⟨⟨by decide, by omega, by decide⟩,
    C3_drawdown_halt_histories drawdownStopConstraints zeroCostModel constLongForecast
      noVolSeries barsDrop62 100000 61 (by decide) (by omega)
      (by decide) (by decide)⟩

/-- Claim C6 as amended: when the model's `fixed_bps` is positive, its
`slippage_factor` non-negative and the supplied volatility (if any)
non-negative, `compute_cost` is non-negative, and it is zero exactly when
`trade_size ≤ 0` or `price ≤ 0` — not only when the notional is zero. -/
theorem C6_cost_nonneg_amended (m : TransactionCostModel) (trade_size price volume : ℝ)
    (volatility : Option ℝ) (hb : 0 < m.fixed_bps) (hs : 0 ≤ m.slippage_factor)
    (hv : ∀ x, volatility = some x → 0 ≤ x) :
    0 ≤ m.compute_cost trade_size price volume volatility ∧
    (m.compute_cost trade_size price volume volatility = 0 ↔ trade_size ≤ 0 ∨ price ≤ 0) := by
  unfold TransactionCostModel.compute_cost
  by_cases h : trade_size ≤ 0 ∨ price ≤ 0
  · rw [if_pos h]
    exact ⟨le_refl 0, by simp [h]⟩
  · rw [if_neg h]
    push_neg at h
    obtain ⟨h1, h2⟩ := h
    have hfix : 0 < trade_size * (m.fixed_bps / 10000) :=
      mul_pos h1 (div_pos hb (by norm_num))
    have key : ∀ slip : ℝ, 0 ≤ slip →
        0 ≤ trade_size * (m.fixed_bps / 10000) + slip ∧
        (trade_size * (m.fixed_bps / 10000) + slip = 0 ↔ trade_size ≤ 0 ∨ price ≤ 0) := by
      intro slip hslip
      refine ⟨by linarith, ?_, ?_⟩
      · intro heq
        exfalso
        linarith
      · intro h'
        rcases h' with h' | h' <;> linarith
    cases volatility with
    | none => exact key 0 (le_refl 0)
    | some x =>
      refine key _ ?_
      show 0 ≤ if volume > 0 then
        m.slippage_factor * (x * price) * Real.sqrt (trade_size / (volume * price)) * trade_size
        else 0
      by_cases hvol : volume > 0
      · rw [if_pos hvol]
        exact mul_nonneg (mul_nonneg (mul_nonneg hs (mul_nonneg (hv x rfl) h2.le))
          (Real.sqrt_nonneg _)) h1.le
      · rw [if_neg hvol]

/-- Claim C6 counterexample: with the default cost model, a positive
notional of 100 at price 0 costs 0 (so cost = 0 does not imply
trade_notional = 0), and a negative volatility input of -10 even produces a
negative cost — the claimed equivalence and unconditional non-negativity
both fail as stated. -/
theorem C6_counterexample :
    (mkTransactionCostModel none none).compute_cost 100 0 50 (some (1/5)) = 0 ∧
    ((100 : ℝ) ≠ 0) ∧
    (mkTransactionCostModel none none).compute_cost 10000 1 1 (some (-10)) < 0 := by
  refine ⟨?_, by norm_num, ?_⟩
  · unfold TransactionCostModel.compute_cost
    rw [if_pos (Or.inr le_rfl)]
  · unfold TransactionCostModel.compute_cost
    rw [if_neg (by norm_num)]
    show (10000 : ℝ) * ((mkTransactionCostModel none none).fixed_bps / 10000) +
      (if (1:ℝ) > 0 then
        (mkTransactionCostModel none none).slippage_factor * ((-10) * 1) *
          Real.sqrt (10000 / (1 * 1)) * 10000
       else 0) < 0
    rw [if_pos (by norm_num : (1:ℝ) > 0)]
    rw [show (10000 : ℝ) / (1 * 1) = 100 ^ 2 by norm_num,
      Real.sqrt_sq (by norm_num : (0:ℝ) ≤ 100)]
    simp only [mkTransactionCostModel, orDefaultR, settingsTransactionCostBps,
      settingsSlippageFactor]
    norm_num

/-- Witness for `C6_cost_nonneg_amended` at the default model,
notional 100, price 10, zero volume, no volatility. -/
theorem C6_witness :
    (0:ℝ) < (mkTransactionCostModel none none).fixed_bps ∧
    (0:ℝ) ≤ (mkTransactionCostModel none none).slippage_factor ∧
    (0 ≤ (mkTransactionCostModel none none).compute_cost 100 10 0 none ∧
      ((mkTransactionCostModel none none).compute_cost 100 10 0 none = 0 ↔
        (100:ℝ) ≤ 0 ∨ (10:ℝ) ≤ 0)) :=
  ⟨by norm_num [mkTransactionCostModel, orDefaultR, settingsTransactionCostBps],
   by norm_num [mkTransactionCostModel, orDefaultR, settingsSlippageFactor],
   C6_cost_nonneg_amended (mkTransactionCostModel none none) 100 10 0 none
     (by norm_num [mkTransactionCostModel, orDefaultR, settingsTransactionCostBps])
     (by norm_num [mkTransactionCostModel, orDefaultR, settingsSlippageFactor])
     (fun x h => Option.noConfusion h)⟩

/-- Claim C8: on a reversing trade (pre-trade position and desired shares of
opposite signs, both beyond the engine's 1e-6 dust tolerance, and the trade
larger in magnitude than the open position), the realized P&L equals
`(p - entry_price) * |position|` for a reversed long and
`(entry_price - p) * |position|` for a reversed short, and afterwards
`entry_value = |desired| * p` and `entry_price = p`. In the code this flows
through the closing branch (Case 3, full close) followed by the buy/sell
entry-price reset and the consistency repair; the dedicated reversal branch
(Case 4) is dead code. -/
theorem C8_reverse_pnl_and_cost_basis (costFn : ℚ → ℚ → ℚ → ℚ → ℚ)
    (cash position entry_value entry_price desired_shares current_price
      current_volume realized_vol : ℚ)
    (hpos : eps < |position|) (hdes : eps < |desired_shares|)
    (hopp : position * desired_shares < 0)
    (hmag : |desired_shares - position| > |position|) :
    (executeTrade costFn cash position entry_value entry_price desired_shares
        current_price current_volume realized_vol).trade_pnl
      = (if position > 0 then (current_price - entry_price) * |position|
         else (entry_price - current_price) * |position|) ∧
    (executeTrade costFn cash position entry_value entry_price desired_shares
        current_price current_volume realized_vol).entry_value
      = |desired_shares| * current_price ∧
    (executeTrade costFn cash position entry_value entry_price desired_shares
        current_price current_volume realized_vol).entry_price = current_price := by
  have hdne : |desired_shares| ≠ 0 := ne_of_gt (lt_trans (by norm_num [eps]) hdes)
  have hminp : min |position| |desired_shares - position| = |position| :=
    min_eq_left (le_of_lt hmag)
  rcases mul_neg_iff.mp hopp with ⟨hp, hd⟩ | ⟨hp, hd⟩
  · -- long reversed to short
    have hts : desired_shares - position < 0 := by linarith
    simp only [executeTrade]
    rw [if_neg (not_lt.mpr (le_of_lt hpos))]
    rw [if_neg (by rintro (⟨_, h⟩ | ⟨h, _⟩) <;> linarith)]
    rw [if_pos (Or.inl ⟨hp, hts⟩)]
    rw [if_neg (not_lt.mpr (le_of_lt hmag))]
    rw [if_neg (not_lt.mpr (le_of_lt hts))]
    rw [if_pos (Or.inr ⟨hp, hd⟩)]
    rw [if_pos hdes]
    rw [ite_self]
    rw [if_pos (by norm_num [eps, abs_zero] : |(0:ℚ)| < eps)]
    rw [if_pos hdes]
    rw [hminp, if_pos hp]
    refine ⟨rfl, rfl, ?_⟩
    exact mul_div_cancel_left₀ current_price hdne
  · -- short reversed to long
    have hts : desired_shares - position > 0 := by linarith
    simp only [executeTrade]
    rw [if_neg (not_lt.mpr (le_of_lt hpos))]
    rw [if_neg (by rintro (⟨h, _⟩ | ⟨_, h⟩) <;> linarith)]
    rw [if_pos (Or.inr ⟨hp, hts⟩)]
    rw [if_neg (not_lt.mpr (le_of_lt hmag))]
    rw [if_pos hts]
    rw [if_pos (Or.inr ⟨hp, hd⟩)]
    rw [if_pos hdes]
    rw [ite_self]
    rw [if_pos (by norm_num [eps, abs_zero] : |(0:ℚ)| < eps)]
    rw [if_pos hdes]
    rw [hminp, if_neg (not_lt.mpr (le_of_lt hp))]
    refine ⟨rfl, rfl, ?_⟩
    exact mul_div_cancel_left₀ current_price hdne


/-- Witness for `C8_reverse_pnl_and_cost_basis`: a 100-share long entered at
100 reversed to a 100-share short at price 110 realizes +1000 and re-opens
with cost basis 11000 at entry price 110. -/
theorem C8_witness :
    (eps < |(100:ℚ)| ∧ eps < |(-100:ℚ)| ∧ (100:ℚ) * (-100) < 0 ∧
      |(-100:ℚ) - 100| > |(100:ℚ)|) ∧
    ((executeTrade zeroCostModel 100000 100 10000 100 (-100) 110 1000 (1/5)).trade_pnl
        = (if (100:ℚ) > 0 then ((110:ℚ) - 100) * |(100:ℚ)|
           else ((100:ℚ) - 110) * |(100:ℚ)|) ∧
      (executeTrade zeroCostModel 100000 100 10000 100 (-100) 110 1000 (1/5)).entry_value
        = |(-100:ℚ)| * 110 ∧
      (executeTrade zeroCostModel 100000 100 10000 100 (-100) 110 1000 (1/5)).entry_price
        = 110) :=
  ⟨⟨by with_unfolding_all decide, by with_unfolding_all decide,
    by with_unfolding_all decide, by with_unfolding_all decide⟩,
    C8_reverse_pnl_and_cost_basis zeroCostModel 100000 100 10000 100 (-100) 110 1000 (1/5)
      (by with_unfolding_all decide) (by with_unfolding_all decide)
      (by with_unfolding_all decide) (by with_unfolding_all decide)⟩

theorem forall₂_map_eq {α : Type} {R : SignalResult → SignalResult → Prop}
    {f : SignalResult → α} {l1 l2 : List SignalResult}
    (h : List.Forall₂ R l1 l2) (hf : ∀ a b, R a b → f a = f b) :
    l1.map f = l2.map f := by
  induction h with
  | nil => rfl
  | cons hab htail ih => simp [hf _ _ hab, ih]

theorem tradingSignalsOf_forall₂ {R : SignalResult → SignalResult → Prop}
    (hR : ∀ a b, R a b → a.name = b.name) {s1 s2 : List SignalResult}
    (h : List.Forall₂ R s1 s2) :
    List.Forall₂ R (tradingSignalsOf s1) (tradingSignalsOf s2) := by
  induction h with
  | nil => exact List.Forall₂.nil
  | @cons a b l1 l2 hab htail ih =>
    simp only [tradingSignalsOf, List.filter_cons] at ih ⊢
    rw [hR _ _ hab]
    by_cases hp : b.name = "Regime Filter"
    · have hc : (decide (b.name ≠ "Regime Filter")) = false := by simp [hp]
      rw [hc, if_neg (fun hcc => Bool.noConfusion hcc)]
      exact ih
    · have hc : (decide (b.name ≠ "Regime Filter")) = true := by simp [hp]
      rw [hc, if_pos rfl]
      exact List.Forall₂.cons hab ih

theorem regimeListOf_forall₂ {R : SignalResult → SignalResult → Prop}
    (hR : ∀ a b, R a b → a.name = b.name) {s1 s2 : List SignalResult}
    (h : List.Forall₂ R s1 s2) :
    List.Forall₂ (fun a b => R a b ∧ a.name = "Regime Filter")
      (s1.filter (fun s => decide (s.name = "Regime Filter")))
      (s2.filter (fun s => decide (s.name = "Regime Filter"))) := by
  induction h with
  | nil => exact List.Forall₂.nil
  | @cons a b l1 l2 hab htail ih =>
    simp only [List.filter_cons] at ih ⊢
    rw [hR _ _ hab]
    by_cases hp : b.name = "Regime Filter"
    · have hc : (decide (b.name = "Regime Filter")) = true := by simp [hp]
      rw [hc, if_pos rfl]
      exact List.Forall₂.cons ⟨hab, (hR _ _ hab).trans hp⟩ ih
    · have hc : (decide (b.name = "Regime Filter")) = false := by simp [hp]
      rw [hc, if_neg (fun hcc => Bool.noConfusion hcc)]
      exact ih

theorem forall₂_getLast?_score {R : SignalResult → SignalResult → Prop}
    (hsc : ∀ a b, R a b → a.score = b.score) :
    ∀ {l1 l2 : List SignalResult}, List.Forall₂ R l1 l2 →
      l1.getLast?.map (fun r => r.score) = l2.getLast?.map (fun r => r.score) := by
  intro l1 l2 h
  induction h with
  | nil => rfl
  | @cons a b l1 l2 hab htail ih =>
    cases htail with
    | nil => simp [hsc _ _ hab]
    | @cons c d l1' l2' hcd htail2 =>
      rw [List.getLast?_cons_cons, List.getLast?_cons_cons]
      exact ih

theorem regimeSignalOf_score_eq {R : SignalResult → SignalResult → Prop}
    (hR : ∀ a b, R a b → a.name = b.name)
    (hsc : ∀ a b, R a b → a.name = "Regime Filter" → a.score = b.score)
    {s1 s2 : List SignalResult} (h : List.Forall₂ R s1 s2) :
    (regimeSignalOf s1).map (fun r => r.score) = (regimeSignalOf s2).map (fun r => r.score) := by
  unfold regimeSignalOf
  exact forall₂_getLast?_score (fun a b hab => hsc a b hab.1 hab.2)
    (regimeListOf_forall₂ hR h)

theorem applyScoreScale_congr (m : EnsembleModel) {r1 r2 : Option SignalResult}
    (h : r1.map (fun r => r.score) = r2.map (fun r => r.score)) (x : ℚ) :
    applyScoreScale m r1 x = applyScoreScale m r2 x := by
  cases r1 <;> cases r2 <;> simp_all [applyScoreScale, regimeMultiplierOf]

theorem regimeMultiplierOf_congr {r1 r2 : Option SignalResult}
    (h : r1.map (fun r => r.score) = r2.map (fun r => r.score)) :
    regimeMultiplierOf r1 = regimeMultiplierOf r2 := by
  cases r1 <;> cases r2 <;> simp_all [regimeMultiplierOf]

theorem resolveWeights_congr (m : EnsembleModel) {s1 s2 : List SignalResult}
    {R : SignalResult → SignalResult → Prop} (hR : ∀ a b, R a b → a.name = b.name)
    (htr : List.Forall₂ R (tradingSignalsOf s1) (tradingSignalsOf s2)) :
    resolveWeights m (tradingSignalsOf s1) = resolveWeights m (tradingSignalsOf s2) := by
  unfold resolveWeights
  by_cases hw : m.signal_weights = []
  · rw [if_pos hw, if_pos hw, htr.length_eq]
    by_cases hl : (tradingSignalsOf s2).length > 0
    · rw [if_pos hl, if_pos hl]
      exact forall₂_map_eq htr (fun a b hab => by rw [hR _ _ hab])
    · rw [if_neg hl, if_neg hl]
  · rw [if_neg hw, if_neg hw]

/-- Claim C7: any two signal lists that agree element-wise in names and
scores (confidences free to differ) produce forecasts with identical
direction — direction is a function of scores only. -/
theorem C7_confidence_independence_of_direction (m : EnsembleModel) (s1 s2 : List SignalResult)
    (h : List.Forall₂ (fun a b => a.name = b.name ∧ a.score = b.score) s1 s2) :
    (m.combine s1).direction = (m.combine s2).direction := by
  have hname : ∀ a b : SignalResult, (a.name = b.name ∧ a.score = b.score) → a.name = b.name :=
    fun a b hab => hab.1
  by_cases h1 : s1 = []
  · subst h1
    have h2 : s2 = [] := List.forall₂_nil_left_iff.mp h
    subst h2
    rfl
  · have h2 : s2 ≠ [] := fun he => h1 (List.forall₂_nil_right_iff.mp (he ▸ h))
    unfold EnsembleModel.combine
    rw [if_neg h1, if_neg h2]
    show directionOf m.threshold (applyScoreScale m (regimeSignalOf s1)
        (weightedScoreSum (resolveWeights m (tradingSignalsOf s1)) (tradingSignalsOf s1))) =
      directionOf m.threshold (applyScoreScale m (regimeSignalOf s2)
        (weightedScoreSum (resolveWeights m (tradingSignalsOf s2)) (tradingSignalsOf s2)))
    have htr := tradingSignalsOf_forall₂ hname h
    rw [resolveWeights_congr m hname htr]
    have hsum : weightedScoreSum (resolveWeights m (tradingSignalsOf s2)) (tradingSignalsOf s1)
        = weightedScoreSum (resolveWeights m (tradingSignalsOf s2)) (tradingSignalsOf s2) := by
      unfold weightedScoreSum
      exact congrArg List.sum (forall₂_map_eq htr (fun a b hab => by rw [hab.1, hab.2]))
    rw [hsum]
    rw [applyScoreScale_congr m
      (regimeSignalOf_score_eq hname (fun a b hab _ => hab.2) h) _]

theorem getWeight_eq_zero_of_not_key (w : List (String × ℚ)) (n : String)
    (h : ∀ kv ∈ w, kv.1 ≠ n) : getWeight w n = 0 := by
  induction w with
  | nil => rfl
  | cons kv t ih =>
    simp only [getWeight]
    rw [if_neg (h kv (List.mem_cons_self kv t))]
    exact ih (fun kv2 hkv2 => h kv2 (List.mem_cons_of_mem kv hkv2))

theorem getWeight_map_eq_zero_of_not_key (w : List (String × ℚ)) (n : String) (t : ℚ)
    (h : ∀ kv ∈ w, kv.1 ≠ n) :
    getWeight (w.map (fun kv => (kv.1, kv.2 / t))) n = 0 := by
  refine getWeight_eq_zero_of_not_key _ n ?_
  intro kv hkv
  obtain ⟨kv0, hkv0, hkv0e⟩ := List.mem_map.mp hkv
  rw [← hkv0e]
  exact h kv0 hkv0

/-- Claim C10: with a custom mapping of positive total weight, a trading
signal whose name is not a key of the mapping carries weight 0: changing its
score and confidence (the relation below allows arbitrary changes to every
non-regime signal that is not a key) leaves direction, confidence and the
size hint unchanged. -/
theorem C10_unmapped_signal_no_influence (m : EnsembleModel) (s1 s2 : List SignalResult)
    (hsum : 0 < (m.signal_weights.map (fun kv => kv.2)).sum)
    (h : List.Forall₂ (fun a b => a.name = b.name ∧
        ((a.score = b.score ∧ a.confidence = b.confidence) ∨
          (a.name ≠ "Regime Filter" ∧ ∀ kv ∈ m.signal_weights, kv.1 ≠ a.name))) s1 s2) :
    (m.combine s1).direction = (m.combine s2).direction ∧
    (m.combine s1).confidence = (m.combine s2).confidence ∧
    (m.combine s1).suggested_position_size = (m.combine s2).suggested_position_size := by
  have hname : ∀ a b : SignalResult, (a.name = b.name ∧
      ((a.score = b.score ∧ a.confidence = b.confidence) ∨
        (a.name ≠ "Regime Filter" ∧ ∀ kv ∈ m.signal_weights, kv.1 ≠ a.name))) →
      a.name = b.name := fun a b hab => hab.1
  by_cases h1 : s1 = []
  · subst h1
    have h2 : s2 = [] := List.forall₂_nil_left_iff.mp h
    subst h2
    exact ⟨rfl, rfl, rfl⟩
  · have h2 : s2 ≠ [] := fun he => h1 (List.forall₂_nil_right_iff.mp (he ▸ h))
    have hne : m.signal_weights ≠ [] := by
      intro he
      rw [he] at hsum
      simp at hsum
    have hres : ∀ ts : List SignalResult, resolveWeights m ts =
        m.signal_weights.map
          (fun kv => (kv.1, kv.2 / (m.signal_weights.map (fun kv => kv.2)).sum)) := by
      intro ts
      unfold resolveWeights
      rw [if_neg hne, if_pos hsum]
    have htr := tradingSignalsOf_forall₂ hname h
    have hreg := regimeSignalOf_score_eq hname
      (fun a b hab hrf => by
        rcases hab.2 with h' | h'
        · exact h'.1
        · exact absurd hrf h'.1) h
    have hS : weightedScoreSum (resolveWeights m (tradingSignalsOf s1)) (tradingSignalsOf s1)
        = weightedScoreSum (resolveWeights m (tradingSignalsOf s2)) (tradingSignalsOf s2) := by
      rw [hres (tradingSignalsOf s1), hres (tradingSignalsOf s2)]
      unfold weightedScoreSum
      refine congrArg List.sum (forall₂_map_eq htr ?_)
      intro a b hab
      rcases hab.2 with h' | h'
      · rw [hab.1, h'.1]
      · have hz := getWeight_map_eq_zero_of_not_key m.signal_weights a.name
          ((m.signal_weights.map (fun kv => kv.2)).sum) h'.2
        rw [← hab.1, hz, zero_mul, zero_mul]
    have hC : weightedConfSum (resolveWeights m (tradingSignalsOf s1)) (tradingSignalsOf s1)
        = weightedConfSum (resolveWeights m (tradingSignalsOf s2)) (tradingSignalsOf s2) := by
      rw [hres (tradingSignalsOf s1), hres (tradingSignalsOf s2)]
      unfold weightedConfSum
      refine congrArg List.sum (forall₂_map_eq htr ?_)
      intro a b hab
      rcases hab.2 with h' | h'
      · rw [hab.1, h'.2]
      · have hz := getWeight_map_eq_zero_of_not_key m.signal_weights a.name
          ((m.signal_weights.map (fun kv => kv.2)).sum) h'.2
        rw [← hab.1, hz, mul_zero, mul_zero]
    have hL : (tradingSignalsOf s1).length = (tradingSignalsOf s2).length := htr.length_eq
    have hB : (if (tradingSignalsOf s1).length > 0 then
          weightedConfSum (resolveWeights m (tradingSignalsOf s1)) (tradingSignalsOf s1) else 0)
        = (if (tradingSignalsOf s2).length > 0 then
          weightedConfSum (resolveWeights m (tradingSignalsOf s2)) (tradingSignalsOf s2) else 0) := by
      rw [hL, hC]
    have hWS : applyScoreScale m (regimeSignalOf s1)
          (weightedScoreSum (resolveWeights m (tradingSignalsOf s1)) (tradingSignalsOf s1))
        = applyScoreScale m (regimeSignalOf s2)
          (weightedScoreSum (resolveWeights m (tradingSignalsOf s2)) (tradingSignalsOf s2)) := by
      rw [hS, applyScoreScale_congr m hreg]
    have hCS : confScaleOf m (regimeMultiplierOf (regimeSignalOf s1))
        = confScaleOf m (regimeMultiplierOf (regimeSignalOf s2)) := by
      rw [regimeMultiplierOf_congr hreg]
    refine ⟨?_, ?_, ?_⟩
    · unfold EnsembleModel.combine
      rw [if_neg h1, if_neg h2]
      show directionOf m.threshold (applyScoreScale m (regimeSignalOf s1)
          (weightedScoreSum (resolveWeights m (tradingSignalsOf s1)) (tradingSignalsOf s1))) =
        directionOf m.threshold (applyScoreScale m (regimeSignalOf s2)
          (weightedScoreSum (resolveWeights m (tradingSignalsOf s2)) (tradingSignalsOf s2)))
      rw [hWS]
    · unfold EnsembleModel.combine
      rw [if_neg h1, if_neg h2]
      show max (min ((if (tradingSignalsOf s1).length > 0 then
            weightedConfSum (resolveWeights m (tradingSignalsOf s1)) (tradingSignalsOf s1) else 0)
          * confScaleOf m (regimeMultiplierOf (regimeSignalOf s1))) 1) 0 =
        max (min ((if (tradingSignalsOf s2).length > 0 then
            weightedConfSum (resolveWeights m (tradingSignalsOf s2)) (tradingSignalsOf s2) else 0)
          * confScaleOf m (regimeMultiplierOf (regimeSignalOf s2))) 1) 0
      rw [hB, hCS]
    · unfold EnsembleModel.combine
      rw [if_neg h1, if_neg h2]
      show some (if directionOf m.threshold (applyScoreScale m (regimeSignalOf s1)
            (weightedScoreSum (resolveWeights m (tradingSignalsOf s1)) (tradingSignalsOf s1)))
            ≠ "flat" then
          min ((max (min ((if (tradingSignalsOf s1).length > 0 then
              weightedConfSum (resolveWeights m (tradingSignalsOf s1)) (tradingSignalsOf s1)
              else 0) * confScaleOf m (regimeMultiplierOf (regimeSignalOf s1))) 1) 0)
            * |applyScoreScale m (regimeSignalOf s1)
                (weightedScoreSum (resolveWeights m (tradingSignalsOf s1))
                  (tradingSignalsOf s1))|) 1
          else 0) =
        some (if directionOf m.threshold (applyScoreScale m (regimeSignalOf s2)
            (weightedScoreSum (resolveWeights m (tradingSignalsOf s2)) (tradingSignalsOf s2)))
            ≠ "flat" then
          min ((max (min ((if (tradingSignalsOf s2).length > 0 then
              weightedConfSum (resolveWeights m (tradingSignalsOf s2)) (tradingSignalsOf s2)
              else 0) * confScaleOf m (regimeMultiplierOf (regimeSignalOf s2))) 1) 0)
            * |applyScoreScale m (regimeSignalOf s2)
                (weightedScoreSum (resolveWeights m (tradingSignalsOf s2))
                  (tradingSignalsOf s2))|) 1
          else 0)
      rw [hWS, hB, hCS]

/-- Witness for `C7_confidence_independence_of_direction`: the same two
trading scores with confidences 0.9/0.9 versus 0.1/0.1. -/
theorem C7_witness :
    List.Forall₂ (fun a b : SignalResult => a.name = b.name ∧ a.score = b.score)
      [{ name := momentumSignalName, score := 2/5, confidence := 9/10 },
       { name := meanReversionSignalName, score := 1/5, confidence := 9/10 }]
      [{ name := momentumSignalName, score := 2/5, confidence := 1/10 },
       { name := meanReversionSignalName, score := 1/5, confidence := 1/10 }] ∧
    (EnsembleModel.combine {}
      [{ name := momentumSignalName, score := 2/5, confidence := 9/10 },
       { name := meanReversionSignalName, score := 1/5, confidence := 9/10 }]).direction =
    (EnsembleModel.combine {}
      [{ name := momentumSignalName, score := 2/5, confidence := 1/10 },
       { name := meanReversionSignalName, score := 1/5, confidence := 1/10 }]).direction :=
  ⟨List.Forall₂.cons ⟨rfl, rfl⟩ (List.Forall₂.cons ⟨rfl, rfl⟩ List.Forall₂.nil),
    C7_confidence_independence_of_direction {} _ _
      (List.Forall₂.cons ⟨rfl, rfl⟩ (List.Forall₂.cons ⟨rfl, rfl⟩ List.Forall₂.nil))⟩

/-- Witness for `C10_unmapped_signal_no_influence`: only the momentum signal
is mapped; the mean-reversion signal's score and confidence change without
any effect on the three output fields. -/
theorem C10_witness :
    (0 < ((EnsembleModel.mk [(momentumSignalName, 1)] (3/10) (1/10)).signal_weights.map
        (fun kv => kv.2)).sum) ∧
    ((EnsembleModel.combine (EnsembleModel.mk [(momentumSignalName, 1)] (3/10) (1/10))
        [{ name := momentumSignalName, score := 1/2, confidence := 9/10 },
         { name := meanReversionSignalName, score := 4/5, confidence := 9/10 }]).direction =
      (EnsembleModel.combine (EnsembleModel.mk [(momentumSignalName, 1)] (3/10) (1/10))
        [{ name := momentumSignalName, score := 1/2, confidence := 9/10 },
         { name := meanReversionSignalName, score := -3/10, confidence := 1/5 }]).direction ∧
     (EnsembleModel.combine (EnsembleModel.mk [(momentumSignalName, 1)] (3/10) (1/10))
        [{ name := momentumSignalName, score := 1/2, confidence := 9/10 },
         { name := meanReversionSignalName, score := 4/5, confidence := 9/10 }]).confidence =
      (EnsembleModel.combine (EnsembleModel.mk [(momentumSignalName, 1)] (3/10) (1/10))
        [{ name := momentumSignalName, score := 1/2, confidence := 9/10 },
         { name := meanReversionSignalName, score := -3/10, confidence := 1/5 }]).confidence ∧
     (EnsembleModel.combine (EnsembleModel.mk [(momentumSignalName, 1)] (3/10) (1/10))
        [{ name := momentumSignalName, score := 1/2, confidence := 9/10 },
         { name := meanReversionSignalName, score := 4/5, confidence := 9/10 }]).suggested_position_size =
      (EnsembleModel.combine (EnsembleModel.mk [(momentumSignalName, 1)] (3/10) (1/10))
        [{ name := momentumSignalName, score := 1/2, confidence := 9/10 },
         { name := meanReversionSignalName, score := -3/10, confidence := 1/5 }]).suggested_position_size) :=
  ⟨by with_unfolding_all decide,
    C10_unmapped_signal_no_influence (EnsembleModel.mk [(momentumSignalName, 1)] (3/10) (1/10)) _ _
      (by with_unfolding_all decide)
      (List.Forall₂.cons ⟨rfl, Or.inl ⟨rfl, rfl⟩⟩
        (List.Forall₂.cons
          ⟨rfl, Or.inr ⟨by with_unfolding_all decide,
            by intro kv hkv; rw [List.mem_singleton.mp hkv]; with_unfolding_all decide⟩⟩
          List.Forall₂.nil))⟩

theorem insertRowByDate_filter (x : OhlcvRow) (l : List OhlcvRow) (d : ℕ) :
    (insertRowByDate x l).filter (fun r => decide (r.date = d)) =
      if x.date = d then x :: l.filter (fun r => decide (r.date = d))
      else l.filter (fun r => decide (r.date = d)) := by
  induction l with
  | nil =>
    simp only [insertRowByDate, List.filter_cons, List.filter_nil]
    by_cases hx : x.date = d <;> simp [hx]
  | cons y ys ih =>
    simp only [insertRowByDate]
    by_cases hle : x.date ≤ y.date
    · rw [if_pos hle]
      by_cases hx : x.date = d <;> simp [List.filter_cons, hx]
    · rw [if_neg hle]
      by_cases hx : x.date = d
      · by_cases hy : y.date = d
        · omega
        · simp [List.filter_cons, hx, hy, ih]
      · by_cases hy : y.date = d <;> simp [List.filter_cons, hx, hy, ih]

theorem sortRowsByDate_filter (l : List OhlcvRow) (d : ℕ) :
    (sortRowsByDate l).filter (fun r => decide (r.date = d)) =
      l.filter (fun r => decide (r.date = d)) := by
  induction l with
  | nil => rfl
  | cons x xs ih =>
    simp only [sortRowsByDate]
    rw [insertRowByDate_filter]
    by_cases hx : x.date = d
    · rw [if_pos hx, ih]
      simp [List.filter_cons, hx]
    · rw [if_neg hx, ih]
      simp [List.filter_cons, hx]

theorem mem_insertRowByDate {z x : OhlcvRow} {l : List OhlcvRow}
    (h : z ∈ insertRowByDate x l) : z = x ∨ z ∈ l := by
  induction l with
  | nil =>
    simp only [insertRowByDate] at h
    exact Or.inl (List.mem_singleton.mp h)
  | cons y ys ih =>
    simp only [insertRowByDate] at h
    by_cases hle : x.date ≤ y.date
    · rw [if_pos hle] at h
      rcases List.mem_cons.mp h with h1 | h1
      · exact Or.inl h1
      · exact Or.inr h1
    · rw [if_neg hle] at h
      rcases List.mem_cons.mp h with h1 | h1
      · exact Or.inr (List.mem_cons.mpr (Or.inl h1))
      · rcases ih h1 with h2 | h2
        · exact Or.inl h2
        · exact Or.inr (List.mem_cons.mpr (Or.inr h2))

theorem insertRowByDate_pairwise {x : OhlcvRow} {l : List OhlcvRow}
    (hl : l.Pairwise (fun a b => a.date ≤ b.date)) :
    (insertRowByDate x l).Pairwise (fun a b => a.date ≤ b.date) := by
  induction l with
  | nil => simp [insertRowByDate]
  | cons y ys ih =>
    rcases List.pairwise_cons.mp hl with ⟨hy, hys⟩
    simp only [insertRowByDate]
    by_cases hle : x.date ≤ y.date
    · rw [if_pos hle]
      refine List.pairwise_cons.mpr ⟨?_, hl⟩
      intro z hz
      rcases List.mem_cons.mp hz with h1 | h1
      · rw [h1]; exact hle
      · exact le_trans hle (hy z h1)
    · rw [if_neg hle]
      refine List.pairwise_cons.mpr ⟨?_, ih hys⟩
      intro z hz
      rcases mem_insertRowByDate hz with h1 | h1
      · rw [h1]; omega
      · exact hy z h1

theorem sortRowsByDate_pairwise (l : List OhlcvRow) :
    (sortRowsByDate l).Pairwise (fun a b => a.date ≤ b.date) := by
  induction l with
  | nil => exact List.Pairwise.nil
  | cons x xs ih => exact insertRowByDate_pairwise ih

theorem dedupKeepLast_subset {z : OhlcvRow} : ∀ {l : List OhlcvRow},
    z ∈ dedupKeepLast l → z ∈ l := by
  intro l
  induction l with
  | nil => intro h; exact absurd h (List.not_mem_nil z)
  | cons r t ih =>
    intro h
    simp only [dedupKeepLast] at h
    by_cases hc : t.any (fun x => decide (x.date = r.date)) = true
    · rw [if_pos hc] at h
      exact List.mem_cons_of_mem r (ih h)
    · rw [if_neg hc] at h
      rcases List.mem_cons.mp h with h1 | h1
      · exact List.mem_cons.mpr (Or.inl h1)
      · exact List.mem_cons_of_mem r (ih h1)

theorem dedupKeepLast_pairwise_lt : ∀ {l : List OhlcvRow},
    l.Pairwise (fun a b => a.date ≤ b.date) →
    (dedupKeepLast l).Pairwise (fun a b => a.date < b.date) := by
  intro l
  induction l with
  | nil => intro _; exact List.Pairwise.nil
  | cons r t ih =>
    intro hl
    rcases List.pairwise_cons.mp hl with ⟨hr, ht⟩
    simp only [dedupKeepLast]
    by_cases hc : t.any (fun x => decide (x.date = r.date)) = true
    · rw [if_pos hc]
      exact ih ht
    · rw [if_neg hc]
      refine List.pairwise_cons.mpr ⟨?_, ih ht⟩
      intro z hz
      have hzt := dedupKeepLast_subset hz
      have hle := hr z hzt
      have hne : ¬ (z.date = r.date) := by
        intro he
        exact hc (List.any_eq_true.mpr ⟨z, hzt, by simp [he]⟩)
      omega

theorem dedupKeepLast_filter (l : List OhlcvRow) (d : ℕ) :
    (dedupKeepLast l).filter (fun r => decide (r.date = d)) =
      ((l.filter (fun r => decide (r.date = d))).getLast?).toList := by
  induction l with
  | nil => rfl
  | cons r t ih =>
    simp only [dedupKeepLast]
    by_cases hc : t.any (fun x => decide (x.date = r.date)) = true
    · rw [if_pos hc, ih]
      by_cases hr : r.date = d
      · obtain ⟨x, hxt, hxd⟩ := List.any_eq_true.mp hc
        have hxd' : x.date = r.date := of_decide_eq_true hxd
        have hne : t.filter (fun r => decide (r.date = d)) ≠ [] := by
          intro he
          have hxmem : x ∈ t.filter (fun r => decide (r.date = d)) :=
            List.mem_filter.mpr ⟨hxt, by simp [hxd', hr]⟩
          rw [he] at hxmem
          exact absurd hxmem (List.not_mem_nil x)
        have hfc : (r :: t).filter (fun r => decide (r.date = d)) =
            r :: t.filter (fun r => decide (r.date = d)) := by
          simp [List.filter_cons, hr]
        rw [hfc]
        obtain ⟨a, l', hl'⟩ := List.exists_cons_of_ne_nil hne
        rw [hl', List.getLast?_cons_cons]
      · have hfc : (r :: t).filter (fun r => decide (r.date = d)) =
            t.filter (fun r => decide (r.date = d)) := by
          simp [List.filter_cons, hr]
        rw [hfc]
    · rw [if_neg hc]
      by_cases hr : r.date = d
      · have hft : t.filter (fun r => decide (r.date = d)) = [] := by
          rw [List.filter_eq_nil_iff]
          intro a ha
          simp only [decide_eq_true_eq]
          intro had
          exact hc (List.any_eq_true.mpr ⟨a, ha, by simp [had, hr]⟩)
        have hl0 : (dedupKeepLast t).filter (fun r => decide (r.date = d)) = [] := by
          rw [ih, hft]
          rfl
        have hfcl : (r :: dedupKeepLast t).filter (fun r => decide (r.date = d)) =
            r :: (dedupKeepLast t).filter (fun r => decide (r.date = d)) := by
          simp [List.filter_cons, hr]
        have hfc : (r :: t).filter (fun r => decide (r.date = d)) =
            r :: t.filter (fun r => decide (r.date = d)) := by
          simp [List.filter_cons, hr]
        rw [hfcl, hl0, hfc, hft]
        rfl
      · have hfcl : (r :: dedupKeepLast t).filter (fun r => decide (r.date = d)) =
            (dedupKeepLast t).filter (fun r => decide (r.date = d)) := by
          simp [List.filter_cons, hr]
        have hfc : (r :: t).filter (fun r => decide (r.date = d)) =
            t.filter (fun r => decide (r.date = d)) := by
          simp [List.filter_cons, hr]
        rw [hfcl, hfc, ih]

theorem sortRowsByDate_eq_of_sorted : ∀ {l : List OhlcvRow},
    l.Pairwise (fun a b => a.date ≤ b.date) → sortRowsByDate l = l := by
  intro l
  induction l with
  | nil => intro _; rfl
  | cons x xs ih =>
    intro hl
    rcases List.pairwise_cons.mp hl with ⟨hx, hxs⟩
    simp only [sortRowsByDate]
    rw [ih hxs]
    cases xs with
    | nil => rfl
    | cons y ys =>
      simp only [insertRowByDate]
      rw [if_pos (hx y (List.mem_cons_self y ys))]

theorem repairRow_inv (r : OhlcvRow) :
    max (repairRow r).open_ (max (repairRow r).close (repairRow r).low) ≤ (repairRow r).high ∧
    (repairRow r).low ≤ min (repairRow r).open_ (min (repairRow r).close (repairRow r).high) ∧
    0 ≤ (repairRow r).volume := by
  simp only [repairRow]
  refine ⟨?_, ?_, ?_⟩
  case _ =>
    split_ifs with h1 h2 <;>
      simp only [max_le_iff, le_min_iff] <;>
      refine ⟨?_, ?_, ?_⟩ <;>
        linarith [le_max_left r.open_ (max r.close r.low),
          le_max_right r.open_ (max r.close r.low),
          le_max_left r.close r.low, le_max_right r.close r.low,
          min_le_left r.open_ (min r.close r.high),
          min_le_right r.open_ (min r.close r.high),
          min_le_left r.close r.high, min_le_right r.close r.high,
          min_le_left r.open_ (min r.close (max r.open_ (max r.close r.low))),
          min_le_right r.open_ (min r.close (max r.open_ (max r.close r.low))),
          min_le_left r.close (max r.open_ (max r.close r.low)),
          min_le_right r.close (max r.open_ (max r.close r.low))]
  case _ =>
    split_ifs with h1 h2 <;>
      simp only [max_le_iff, le_min_iff] <;>
      refine ⟨?_, ?_, ?_⟩ <;>
        linarith [le_max_left r.open_ (max r.close r.low),
          le_max_right r.open_ (max r.close r.low),
          le_max_left r.close r.low, le_max_right r.close r.low,
          min_le_left r.open_ (min r.close r.high),
          min_le_right r.open_ (min r.close r.high),
          min_le_left r.close r.high, min_le_right r.close r.high,
          min_le_left r.open_ (min r.close (max r.open_ (max r.close r.low))),
          min_le_right r.open_ (min r.close (max r.open_ (max r.close r.low))),
          min_le_left r.close (max r.open_ (max r.close r.low)),
          min_le_right r.close (max r.open_ (max r.close r.low))]
  case _ =>
    split_ifs with h1 <;> linarith

/-- Inserting a row keeps the list a permutation of the cons. -/
theorem insertRowByDate_perm (x : OhlcvRow) (l : List OhlcvRow) :
    (insertRowByDate x l).Perm (x :: l) := by
  induction l with
  | nil => exact List.Perm.refl _
  | cons y ys ih =>
    simp only [insertRowByDate]
    by_cases h : x.date ≤ y.date
    · rw [if_pos h]
    · rw [if_neg h]
      exact (ih.cons y).trans (List.Perm.swap x y ys)

/-- The stable sort is a permutation of its input, so it is one admissible
`sort_values` outcome. -/
theorem sortRowsByDate_perm (l : List OhlcvRow) : (sortRowsByDate l).Perm l := by
  induction l with
  | nil => exact List.Perm.refl _
  | cons x xs ih =>
    simp only [sortRowsByDate]
    exact (insertRowByDate_perm x (sortRowsByDate xs)).trans (ih.cons x)

/-- After `drop_duplicates(keep="last")` the surviving rows have pairwise
distinct dates, whatever the incoming order was. -/
theorem dedupKeepLast_dates_ne (l : List OhlcvRow) :
    (dedupKeepLast l).Pairwise (fun a b => a.date ≠ b.date) := by
  induction l with
  | nil => exact List.Pairwise.nil
  | cons r t ih =>
    simp only [dedupKeepLast]
    by_cases h : (t.any fun x => decide (x.date = r.date)) = true
    · rw [if_pos h]; exact ih
    · rw [if_neg h]
      refine List.Pairwise.cons ?_ ih
      intro z hz hEq
      exact h (List.any_eq_true.mpr ⟨z, dedupKeepLast_subset hz, by simp [hEq]⟩)

/-- Every date present in the input list survives `drop_duplicates`: some
retained row carries it. -/
theorem dedupKeepLast_covers : ∀ {l : List OhlcvRow} {x : OhlcvRow}, x ∈ l →
    ∃ z ∈ dedupKeepLast l, z.date = x.date := by
  intro l
  induction l with
  | nil => intro x hx; cases hx
  | cons r t ih =>
    intro x hx
    simp only [dedupKeepLast]
    by_cases h : (t.any fun a => decide (a.date = r.date)) = true
    · rw [if_pos h]
      rcases List.mem_cons.mp hx with hxr | hxt
      · obtain ⟨y, hy, hyd⟩ := List.any_eq_true.mp h
        obtain ⟨z, hz, hzd⟩ := ih hy
        subst hxr
        exact ⟨z, hz, by rw [hzd, of_decide_eq_true hyd]⟩
      · exact ih hxt
    · rw [if_neg h]
      rcases List.mem_cons.mp hx with hxr | hxt
      · subst hxr
        exact ⟨x, List.mem_cons_self _ _, rfl⟩
      · obtain ⟨z, hz, hzd⟩ := ih hxt
        exact ⟨z, List.mem_cons_of_mem _ hz, hzd⟩

/-- The executable normalizer is one admissible outcome of the relational
normalizer, for every input. -/
theorem normalize_ohlcv_outcome (input : List RawRow) :
    normalizeOutcome input (normalize_ohlcv input) :=
  ⟨sortRowsByDate (validRows input),
   sortRowsByDate (dedupKeepLast (sortRowsByDate (validRows input))),
   ⟨(sortRowsByDate_perm _).symm, sortRowsByDate_pairwise _⟩,
   ⟨(sortRowsByDate_perm _).symm, sortRowsByDate_pairwise _⟩,
   rfl⟩

/-- Under the stable realization of both sorts, the surviving row of each
date is the last valid input row bearing it (last write wins in input
order). This property depends on sort stability, which pandas' default
`kind="quicksort"` does not guarantee; over `normalizeOutcome` it fails. -/
theorem normalize_ohlcv_keeps_last (input : List RawRow) (d : ℕ) :
    (normalize_ohlcv input).filter (fun x => decide (x.date = d)) =
      (((validRows input).filter (fun x => decide (x.date = d))).getLast?.map
        repairRow).toList := by
  have hs1 : (sortRowsByDate (validRows input)).Pairwise (fun a b => a.date ≤ b.date) :=
    sortRowsByDate_pairwise _
  have hdd : (dedupKeepLast (sortRowsByDate (validRows input))).Pairwise
      (fun a b => a.date < b.date) := dedupKeepLast_pairwise_lt hs1
  have hddle : (dedupKeepLast (sortRowsByDate (validRows input))).Pairwise
      (fun a b => a.date ≤ b.date) := hdd.imp (fun h => le_of_lt h)
  have hnorm : normalize_ohlcv input =
      (dedupKeepLast (sortRowsByDate (validRows input))).map repairRow := by
    show (sortRowsByDate (dedupKeepLast (sortRowsByDate (validRows input)))).map repairRow =
      (dedupKeepLast (sortRowsByDate (validRows input))).map repairRow
    rw [sortRowsByDate_eq_of_sorted hddle]
  rw [hnorm]
  have hfm : ((dedupKeepLast (sortRowsByDate (validRows input))).map repairRow).filter
      (fun x => decide (x.date = d)) =
      ((dedupKeepLast (sortRowsByDate (validRows input))).filter
        (fun x => decide (x.date = d))).map repairRow := by
    rw [List.filter_map]
    rfl
  rw [hfm, dedupKeepLast_filter, sortRowsByDate_filter]
  cases hcase : ((validRows input).filter (fun x => decide (x.date = d))).getLast? with
  | none => rfl
  | some a => rfl

/-- Claim C9 as amended: pandas' default sort kind is not guaranteed stable,
so for every admissible run of the normalizer (any date-ordered permutation
of the valid rows feeding `drop_duplicates(keep="last")`) the output
satisfies the repaired OHLC invariants (`high` at least `max(open, close,
low)`, `low` at most `min(open, close, high)`) and non-negative volume, its
dates are strictly increasing, every output row is the repaired image of
some valid input row bearing its date, and every valid input date is
represented — but which duplicate-date row survives is the last in
post-sort order, not necessarily the last input row. -/
theorem C9_normalize_invariants (input : List RawRow) (output : List OhlcvRow)
    (hout : normalizeOutcome input output) :
    (∀ r ∈ output,
        max r.open_ (max r.close r.low) ≤ r.high ∧
        r.low ≤ min r.open_ (min r.close r.high) ∧ 0 ≤ r.volume) ∧
    output.Pairwise (fun a b => a.date < b.date) ∧
    (∀ r ∈ output, ∃ x ∈ validRows input, x.date = r.date ∧ r = repairRow x) ∧
    (∀ x ∈ validRows input, ∃ r ∈ output, r.date = x.date) := by
  obtain ⟨s, t, ⟨hps, _⟩, ⟨hpt, hst⟩, hmap⟩ := hout
  have htne : t.Pairwise (fun a b => a.date ≠ b.date) := by
    have h1 : ((dedupKeepLast s).map (fun r => r.date)).Pairwise (fun a b => a ≠ b) :=
      List.pairwise_map.mpr (dedupKeepLast_dates_ne s)
    have h2 : (t.map (fun r => r.date)).Pairwise (fun a b => a ≠ b) :=
      ((hpt.map (fun r => r.date)).pairwise_iff (fun h => h.symm)).mp h1
    exact List.pairwise_map.mp h2
  have htlt : t.Pairwise (fun a b => a.date < b.date) := by
    have hand := List.Pairwise.and hst htne
    exact hand.imp (fun h => lt_of_le_of_ne h.1 h.2)
  refine ⟨?_, ?_, ?_, ?_⟩
  · intro r hr
    rw [hmap] at hr
    obtain ⟨x, _, hxe⟩ := List.mem_map.mp hr
    rw [← hxe]
    exact repairRow_inv x
  · rw [hmap, List.pairwise_map]
    exact htlt.imp (fun h => h)
  · intro r hr
    rw [hmap] at hr
    obtain ⟨x, hxt, hxe⟩ := List.mem_map.mp hr
    have hxs : x ∈ s := dedupKeepLast_subset (hpt.mem_iff.mpr hxt)
    have hxv : x ∈ validRows input := hps.mem_iff.mpr hxs
    exact ⟨x, hxv, by rw [← hxe, show (repairRow x).date = x.date from rfl], hxe.symm⟩
  · intro x hxv
    have hxs : x ∈ s := hps.mem_iff.mp hxv
    obtain ⟨z, hz, hzd⟩ := dedupKeepLast_covers hxs
    have hzt : z ∈ t := hpt.mem_iff.mp hz
    refine ⟨repairRow z, ?_, ?_⟩
    · rw [hmap]
      exact List.mem_map.mpr ⟨z, hzt, rfl⟩
    · show (repairRow z).date = x.date
      rw [show (repairRow z).date = z.date from rfl, hzd]

/-- Claim C9 counterexample to the original "last row kept" conjunct: on two
valid rows sharing date 1, the date-ordered permutation that swaps them is an
admissible `sort_values` outcome (their dates are equal), and under it
`drop_duplicates(keep="last")` retains the FIRST input row: the singleton
output built from `dupOhlcvFirst` is an admissible normalizer outcome, yet
the last input row with date 1 is `dupOhlcvSecond` and the two repaired rows
differ. -/
theorem C9_counterexample :
    normalizeOutcome [dupRowFirst, dupRowSecond] [repairRow dupOhlcvFirst] ∧
    (validRows [dupRowFirst, dupRowSecond]).getLast? = some dupOhlcvSecond ∧
    dupOhlcvFirst.date = dupOhlcvSecond.date ∧
    repairRow dupOhlcvFirst ≠ repairRow dupOhlcvSecond := by
  refine ⟨⟨[dupOhlcvSecond, dupOhlcvFirst], [dupOhlcvFirst],
    ⟨?_, ?_⟩, ⟨?_, ?_⟩, ?_⟩, ?_, ?_, ?_⟩ <;> decide

/-- Witness for `C9_normalize_invariants` on the three-row repair/dedup
scenario, taking the admissible sort outcome in which the valid rows stay in
input order (they are already date-sorted). -/
theorem C9_witness :
    normalizeOutcome rawRowsRepairDedup
      ((dedupKeepLast (validRows rawRowsRepairDedup)).map repairRow) ∧
    ((∀ r ∈ (dedupKeepLast (validRows rawRowsRepairDedup)).map repairRow,
        max r.open_ (max r.close r.low) ≤ r.high ∧
        r.low ≤ min r.open_ (min r.close r.high) ∧ 0 ≤ r.volume) ∧
      ((dedupKeepLast (validRows rawRowsRepairDedup)).map repairRow).Pairwise
        (fun a b => a.date < b.date) ∧
      (∀ r ∈ (dedupKeepLast (validRows rawRowsRepairDedup)).map repairRow,
        ∃ x ∈ validRows rawRowsRepairDedup, x.date = r.date ∧ r = repairRow x) ∧
      (∀ x ∈ validRows rawRowsRepairDedup,
        ∃ r ∈ (dedupKeepLast (validRows rawRowsRepairDedup)).map repairRow,
          r.date = x.date)) :=
  ⟨⟨validRows rawRowsRepairDedup, dedupKeepLast (validRows rawRowsRepairDedup),
      ⟨by decide, by decide⟩, ⟨by decide, by decide⟩, rfl⟩,
    C9_normalize_invariants rawRowsRepairDedup _
      ⟨validRows rawRowsRepairDedup, dedupKeepLast (validRows rawRowsRepairDedup),
        ⟨by decide, by decide⟩, ⟨by decide, by decide⟩, rfl⟩⟩

end SimonStrat
